import Mathlib

/-!
# Nesoid emulation scheduler (`Nesoid/jni/emulator.cpp`)

A shallow embedding of the frame pacer (`runEmulator`), of the option handling
(`Emulator_setOption`) and of the two-thread pause/resume/quit protocol
(`pauseEmulator`, `resumeEmulator`, `Emulator_run` and the host entry points),
followed by the properties proved about them.

Conventions.
* `unsigned int` values are natural numbers below `UINT_MOD = 2^32`; every
  unsigned operation reduces modulo `UINT_MOD` explicitly.
* `int` values are integers.  The only `int` arithmetic in the embedded code is
  `1000 / fps`, `frameSkipCounter + 1` and comparisons; the counter stays within
  `0 .. maxFrameSkips + 1`, far from the limits of `int`.
* Pointers are modelled by what the code tests: `currentGame` is `none` for
  `NULL` and `some fps` for a loaded game (only `fps` is read by the scheduler),
  `renderSurface`, `engine` and `audioPlayer` are `true` when non-`NULL`.
-/

namespace Nesoid

/-! ## Machine arithmetic -/

/-- Modulus of the 32-bit `unsigned int` type. -/
def UINT_MOD : Nat := 4294967296

/-- Conversion of an `int` to `unsigned int` (as in the product `unsigned * int`). -/
def toUnsigned (i : Int) : Nat := (i % 4294967296).toNat

/-- Unsigned subtraction `a - b`. -/
def usub (a b : Nat) : Nat := (a % UINT_MOD + UINT_MOD - b % UINT_MOD) % UINT_MOD

/-- Unsigned multiplication `a * b`. -/
def umul (a b : Nat) : Nat := (a * b) % UINT_MOD

/-! ## Frame pacer: the locals and the loop body of `runEmulator` -/

/-- The locals of `runEmulator` (lines 184-189). -/
structure FrameTimingContext where
  fps : Int
  frameTime : Nat
  initialTicks : Nat
  lastTicks : Nat
  virtualFrameCount : Nat
  frameSkipCounter : Int
  deriving DecidableEq, Repr

/-- The branch taken by lines 196-209 of `runEmulator` in one iteration. -/
inductive Branch
  | catchUp
  | snap
  | ahead
  deriving DecidableEq, Repr

/-- What one iteration of the loop of `runEmulator` computes and hands to the
outside: the real frame count of line 193, the virtual frame count right after
the increment of line 195, the branch taken, the argument of `usleep` (if it is
called), the value of `frameSkipCounter` at line 216 and the `skip` argument of
`engine->runFrame`. -/
structure Frame where
  realFrameCount : Nat
  virtualFrameCount : Nat
  branch : Branch
  sleep : Option Nat
  frameSkipCounter : Int
  skip : Bool
  deriving DecidableEq, Repr

/-- Lines 184-189 of `runEmulator`: the context at loop entry, for a game
running at `fps` when `ticksGetTicks()` returns `ticks`. -/
def resetContext (fps : Int) (ticks : Nat) : FrameTimingContext :=
  { fps := fps
    frameTime := toUnsigned (Int.tdiv 1000 fps)
    initialTicks := ticks % UINT_MOD
    lastTicks := ticks % UINT_MOD
    virtualFrameCount := 0
    frameSkipCounter := 0 }

/-- Line 193: `(now - initialTicks) * fps / 1000` in `unsigned int` arithmetic. -/
def realFrameCount (c : FrameTimingContext) (now : Nat) : Nat :=
  umul (usub now c.initialTicks) (toUnsigned c.fps) / 1000

/-- Lines 195-209: the virtual frame count, the skip counter, the branch and the
`usleep` argument after the first `if` of the loop body. -/
def pace (autoFrameSkip : Bool) (maxFrameSkips : Int) (now : Nat)
    (c : FrameTimingContext) : Nat × Int × Branch × Option Nat :=
  let real := realFrameCount c now
  let virt := (c.virtualFrameCount + 1) % UINT_MOD
  if real ≥ virt then
    if real > virt ∧ autoFrameSkip = true ∧ c.frameSkipCounter < maxFrameSkips then
      (virt, c.frameSkipCounter + 1, Branch.catchUp, none)
    else
      (real, if autoFrameSkip then 0 else c.frameSkipCounter, Branch.snap, none)
  else
    let delta := usub now c.lastTicks
    (virt, c.frameSkipCounter, Branch.ahead,
      if delta < c.frameTime then some (umul (c.frameTime - delta) 1000) else none)

/-- Lines 210-213: the fixed round-robin counter, applied when auto-skip is off. -/
def roundRobin (autoFrameSkip : Bool) (maxFrameSkips : Int) (k : Int) : Int :=
  if autoFrameSkip then k else if k + 1 > maxFrameSkips then 0 else k + 1

/-- One iteration of the `while` loop of `runEmulator` (lines 192-216) when
`ticksGetTicks()` returns `now`: the updated locals and the frame handed to the
engine.  `autoFrameSkip` and `maxFrameSkips` are the values of the two statics
during the iteration. -/
def loopBody (autoFrameSkip : Bool) (maxFrameSkips : Int) (now : Nat)
    (c : FrameTimingContext) : FrameTimingContext × Frame :=
  let p := pace autoFrameSkip maxFrameSkips now c
  let k := roundRobin autoFrameSkip maxFrameSkips p.2.1
  ({ c with lastTicks := now % UINT_MOD, virtualFrameCount := p.1, frameSkipCounter := k },
   { realFrameCount := realFrameCount c now
     virtualFrameCount := (c.virtualFrameCount + 1) % UINT_MOD
     branch := p.2.2.1
     sleep := p.2.2.2
     frameSkipCounter := k
     skip := decide (k > 0) })

/-- The frames produced by successive iterations of the loop of `runEmulator`
from context `c`, one per tick value returned by `ticksGetTicks()`. -/
def runTicks (autoFrameSkip : Bool) (maxFrameSkips : Int) :
    FrameTimingContext → List Nat → List Frame
  | _, [] => []
  | c, now :: rest =>
    (loopBody autoFrameSkip maxFrameSkips now c).2 ::
      runTicks autoFrameSkip maxFrameSkips (loopBody autoFrameSkip maxFrameSkips now c).1 rest

/-- The locals of `runEmulator` after the iterations for the given ticks. -/
def contextAfter (autoFrameSkip : Bool) (maxFrameSkips : Int) :
    FrameTimingContext → List Nat → FrameTimingContext
  | c, [] => c
  | c, now :: rest =>
    contextAfter autoFrameSkip maxFrameSkips (loopBody autoFrameSkip maxFrameSkips now c).1 rest

/-! ## The statics of `emulator.cpp` and `Emulator_setOption` -/

/-- The anonymous `enum` of lines 34-40. -/
inductive EmuState
  | EMUSTATE_RUNNING
  | EMUSTATE_PAUSED
  | EMUSTATE_REQUEST_PAUSE
  | EMUSTATE_REQUEST_RUN
  | EMUSTATE_QUIT
  deriving DecidableEq, Repr

open EmuState

/-- The file-level statics read or written by the scheduler (lines 16-29).
`keyStates`, `screen16` and the JNI handles other than `renderSurface` are left
out: no embedded statement branches on them. -/
structure Statics where
  emuState : EmuState
  resumeRequested : Bool
  engine : Bool
  currentGame : Option Int
  autoFrameSkip : Bool
  maxFrameSkips : Int
  soundEnabled : Bool
  audioPlayer : Bool
  renderSurface : Bool
  deriving DecidableEq, Repr

/-- `Emulator_setOption` (lines 348-372).  `parsed` is the `int` that
`atoi(value)` returns; `strcmp(a, b) == 0` is string equality.  The last branch
calls `engine->setOption`, which dereferences `engine`: the result is `none`
when `engine` is `NULL`. -/
def Emulator_setOption (name value : String) (parsed : Int) (g : Statics) : Option Statics :=
  if name = "autoFrameSkip" then
    some { g with autoFrameSkip := decide (value ≠ "false") }
  else if name = "maxFrameSkips" then
    some { g with maxFrameSkips :=
      if parsed < 2 then 2 else if parsed > 99 then 99 else parsed }
  else if g.engine = false then
    none
  else if name = "soundEnabled" then
    some { g with soundEnabled := decide (value ≠ "false") }
  else
    some g

/-! ## The two threads -/

/-- The two threads that use `emuStateMutex` and `emuStateCond`: the worker
running `Emulator_run`, and the control thread running the other entry points
(the host serialises its calls). -/
inductive Tid
  | worker
  | control
  deriving DecidableEq, Repr

/-- Program points of the worker in `Emulator_run` (lines 456-483) and in
`runEmulator`, which it calls at line 475.  The loop of `emuThreadProc`
(lines 226-248) is the same statement for statement. -/
inductive WorkerPc
  /-- Lines 456-459: the worker has not yet executed `pthread_mutex_init` and
  `pthread_cond_init`. -/
  | start
  /-- Line 462, `pthread_mutex_lock`. -/
  | lockTop
  /-- Line 463, the test of `while (emuState == EMUSTATE_PAUSED)`. -/
  | whilePaused
  /-- Line 464, inside `pthread_cond_wait`. -/
  | condWait
  /-- Lines 465-468, `if (emuState == EMUSTATE_QUIT)`. -/
  | testQuit
  /-- Lines 469-472, `if (emuState == EMUSTATE_REQUEST_RUN)`. -/
  | testRequestRun
  /-- Line 473, `pthread_mutex_unlock`. -/
  | unlockTop
  /-- Line 475 and lines 180-189: the call of `runEmulator` and its prologue. -/
  | enterRun
  /-- Line 191, the test of `while (emuState == EMUSTATE_RUNNING)`. -/
  | loopTest
  /-- Lines 192-216, one iteration ending with `engine->runFrame`. -/
  | loopBody
  /-- Line 477, `pthread_mutex_lock` (lines 220-221 only touch the audio player). -/
  | lockBottom
  /-- Lines 478-481, `if (emuState == EMUSTATE_REQUEST_PAUSE)`. -/
  | testRequestPause
  /-- Line 482, `pthread_mutex_unlock`. -/
  | unlockBottom
  /-- After the `break` of line 467. -/
  | exited
  deriving DecidableEq, Repr

/-- Program points of the control thread.  The head of the list `Sys.ctl` is
the statement the control thread executes next, the tail is what it executes
after the current function returns. -/
inductive Op
  /-- Line 140 of `pauseEmulator`. -/
  | pause_lock
  /-- Lines 141-142 of `pauseEmulator`. -/
  | pause_test
  /-- Line 143 of `pauseEmulator`, the test of the `while`. -/
  | pause_while
  /-- Line 144 of `pauseEmulator`, inside `pthread_cond_wait`. -/
  | pause_wait
  /-- Line 146 of `pauseEmulator`. -/
  | pause_unlock
  /-- Lines 151-152 of `resumeEmulator`. -/
  | resume_guard
  /-- Line 154 of `resumeEmulator`. -/
  | resume_lock
  /-- Lines 155-157 of `resumeEmulator`. -/
  | resume_test
  /-- Line 159 of `resumeEmulator`, the test of the `while`. -/
  | resume_while
  /-- Line 160 of `resumeEmulator`, inside `pthread_cond_wait`. -/
  | resume_wait
  /-- Line 162 of `resumeEmulator`. -/
  | resume_unlock
  /-- Lines 167-170 of `unloadROM`: the `NULL` test and the call of `pauseEmulator`. -/
  | unload_guard
  /-- Lines 172-175 of `unloadROM`. -/
  | unload_clear
  /-- Line 290 of `Emulator_cleanUp`. -/
  | quit_lock
  /-- Lines 291-292 of `Emulator_cleanUp`. -/
  | quit_set
  /-- Line 293 of `Emulator_cleanUp`. -/
  | quit_unlock
  /-- Lines 295-302 of `Emulator_cleanUp`. -/
  | quit_destroy
  /-- Lines 311-318 of `Emulator_setRenderSurface`. -/
  | surface_release
  /-- Lines 320-332 of `Emulator_setRenderSurface`; `surface` is `surface != NULL`. -/
  | surface_attach (surface : Bool)
  /-- The engine call between `pauseEmulator` and `resumeEmulator` in
  `Emulator_reset`, `Emulator_power`, `Emulator_saveState`, `Emulator_loadState`. -/
  | engine_call
  /-- Lines 395-406 of `Emulator_loadROM`; `rom` is what `engine->loadRom` returns. -/
  | load_rom (rom : Option Int)
  /-- Line 420 of `Emulator_pause` and line 426 of `Emulator_resume`. -/
  | set_resumeRequested (b : Bool)
  /-- The body of `Emulator_setOption`. -/
  | option_write (name value : String) (parsed : Int)
  deriving DecidableEq, Repr

/-- The entry points the host calls on the control thread, with what the
outside world answers: whether the surface passed is non-`NULL`, the game
returned by `engine->loadRom` (`none` for `NULL`, else its `fps`), the value of
`atoi`. -/
inductive HostCall
  | setRenderSurface (surface : Bool)
  | loadROM (rom : Option Int)
  | unloadROM
  | pause
  | resume
  | reset
  | power
  | saveState
  | loadState
  | cleanUp
  | setOption (name value : String) (parsed : Int)
  deriving DecidableEq, Repr

/-- The statements of each entry point, as the control thread runs them. -/
def HostCall.body : HostCall → List Op
  | .setRenderSurface surface => [.pause_lock, .surface_release, .surface_attach surface]
  | .loadROM rom => [.unload_guard, .load_rom rom]
  | .unloadROM => [.unload_guard]
  | .pause => [.set_resumeRequested false, .pause_lock]
  | .resume => [.set_resumeRequested true, .resume_guard]
  | .reset => [.pause_lock, .engine_call, .resume_guard]
  | .power => [.pause_lock, .engine_call, .resume_guard]
  | .saveState => [.pause_lock, .engine_call, .resume_guard]
  | .loadState => [.pause_lock, .engine_call, .resume_guard]
  | .cleanUp => [.unload_guard, .quit_lock]
  | .setOption name value parsed => [.option_write name value parsed]

/-- The state of the process: the statics, the mutex and the condition
variable, the worker (program point and the locals of `runEmulator`), the
control thread, and the calls of `engine->runFrame` made so far (latest first). -/
structure Sys extends Statics where
  /-- Owner of `emuStateMutex`. -/
  mutex : Option Tid
  /-- The worker is blocked on `emuStateCond` and has not been signalled. -/
  workerWaiting : Bool
  /-- The control thread is blocked on `emuStateCond` and has not been signalled. -/
  controlWaiting : Bool
  wpc : WorkerPc
  ctx : FrameTimingContext
  ctl : List Op
  frames : List Frame
  deriving DecidableEq, Repr

/-- The control thread is inside `pthread_cond_wait`. -/
def inCondWait : List Op → Bool
  | Op.pause_wait :: _ => true
  | Op.resume_wait :: _ => true
  | _ => false

/-- The state left by a successful `Emulator_initialize` (lines 271-277), before
the worker has executed anything of `Emulator_run`; `audio` tells whether
`loadAudioPlayer` returned a player. -/
def Emulator_initialize (audio : Bool) : Sys :=
  { emuState := EMUSTATE_PAUSED
    resumeRequested := false
    engine := true
    currentGame := none
    autoFrameSkip := true
    maxFrameSkips := 2
    soundEnabled := false
    audioPlayer := audio
    renderSurface := false
    mutex := none
    workerWaiting := false
    controlWaiting := false
    wpc := WorkerPc.start
    ctx := resetContext 0 0
    ctl := []
    frames := [] }

/-- One statement of the worker thread; `now` is the value `ticksGetTicks()`
returns if the statement calls it.  `none` when the worker cannot move (blocked
on the mutex or the condition variable, or finished), when the statement
dereferences `NULL` or divides by zero, and when it has undefined behaviour:
lines 458-459 initialise `emuStateMutex` and `emuStateCond`, which is defined
only while the control thread neither holds the mutex nor is inside
`pthread_cond_wait` (a control thread that is blocked there when the worker
starts is not woken by the worker's later signals).  `pthread_cond_signal` wakes
the control thread, the only other user of the condition variable. -/
def workerStep (now : Nat) (s : Sys) : Option Sys :=
  match s.wpc with
  | .start =>
    if s.mutex = none ∧ inCondWait s.ctl = false then some { s with wpc := .lockTop }
    else none
  | .lockTop =>
    if s.mutex = none then some { s with mutex := some Tid.worker, wpc := .whilePaused } else none
  | .whilePaused =>
    if s.emuState = EMUSTATE_PAUSED then
      some { s with mutex := none, workerWaiting := true, wpc := .condWait }
    else some { s with wpc := .testQuit }
  | .condWait =>
    if s.workerWaiting = false ∧ s.mutex = none then
      some { s with mutex := some Tid.worker, wpc := .whilePaused }
    else none
  | .testQuit =>
    if s.emuState = EMUSTATE_QUIT then some { s with mutex := none, wpc := .exited }
    else some { s with wpc := .testRequestRun }
  | .testRequestRun =>
    if s.emuState = EMUSTATE_REQUEST_RUN then
      some { s with emuState := EMUSTATE_RUNNING, controlWaiting := false, wpc := .unlockTop }
    else some { s with wpc := .unlockTop }
  | .unlockTop => some { s with mutex := none, wpc := .enterRun }
  | .enterRun =>
    match s.currentGame with
    | none => none
    | some fps =>
      if fps = 0 then none else some { s with ctx := resetContext fps now, wpc := .loopTest }
  | .loopTest =>
    if s.emuState = EMUSTATE_RUNNING then some { s with wpc := .loopBody }
    else some { s with wpc := .lockBottom }
  | .loopBody =>
    if s.engine = false then none
    else
      some { s with
        ctx := (loopBody s.autoFrameSkip s.maxFrameSkips now s.ctx).1
        frames := (loopBody s.autoFrameSkip s.maxFrameSkips now s.ctx).2 :: s.frames
        wpc := .loopTest }
  | .lockBottom =>
    if s.mutex = none then some { s with mutex := some Tid.worker, wpc := .testRequestPause }
    else none
  | .testRequestPause =>
    if s.emuState = EMUSTATE_REQUEST_PAUSE then
      some { s with emuState := EMUSTATE_PAUSED, controlWaiting := false, wpc := .unlockBottom }
    else some { s with wpc := .unlockBottom }
  | .unlockBottom => some { s with mutex := none, wpc := .lockTop }
  | .exited => none

/-- One statement of the control thread, with continuation `k`. -/
def opStep (s : Sys) (k : List Op) : Op → Option Sys
  | .pause_lock =>
    if s.mutex = none then some { s with mutex := some Tid.control, ctl := .pause_test :: k }
    else none
  | .pause_test =>
    if s.emuState = EMUSTATE_RUNNING then
      some { s with emuState := EMUSTATE_REQUEST_PAUSE, ctl := .pause_while :: k }
    else some { s with ctl := .pause_unlock :: k }
  | .pause_while =>
    if s.emuState = EMUSTATE_REQUEST_PAUSE then
      some { s with mutex := none, controlWaiting := true, ctl := .pause_wait :: k }
    else some { s with ctl := .pause_unlock :: k }
  | .pause_wait =>
    if s.controlWaiting = false ∧ s.mutex = none then
      some { s with mutex := some Tid.control, ctl := .pause_while :: k }
    else none
  | .pause_unlock => some { s with mutex := none, ctl := k }
  | .resume_guard =>
    if s.resumeRequested = false ∨ s.renderSurface = false ∨ s.currentGame = none then
      some { s with ctl := k }
    else some { s with ctl := .resume_lock :: k }
  | .resume_lock =>
    if s.mutex = none then some { s with mutex := some Tid.control, ctl := .resume_test :: k }
    else none
  | .resume_test =>
    if s.emuState = EMUSTATE_PAUSED then
      some { s with
        emuState := EMUSTATE_REQUEST_RUN, workerWaiting := false, ctl := .resume_while :: k }
    else some { s with ctl := .resume_unlock :: k }
  | .resume_while =>
    if s.emuState = EMUSTATE_REQUEST_RUN then
      some { s with mutex := none, controlWaiting := true, ctl := .resume_wait :: k }
    else some { s with ctl := .resume_unlock :: k }
  | .resume_wait =>
    if s.controlWaiting = false ∧ s.mutex = none then
      some { s with mutex := some Tid.control, ctl := .resume_while :: k }
    else none
  | .resume_unlock => some { s with mutex := none, ctl := k }
  | .unload_guard =>
    if s.currentGame = none then some { s with ctl := k }
    else some { s with ctl := .pause_lock :: .unload_clear :: k }
  | .unload_clear =>
    if s.engine = false then none else some { s with currentGame := none, ctl := k }
  | .quit_lock =>
    if s.mutex = none then some { s with mutex := some Tid.control, ctl := .quit_set :: k }
    else none
  | .quit_set =>
    some { s with emuState := EMUSTATE_QUIT, workerWaiting := false, ctl := .quit_unlock :: k }
  | .quit_unlock => some { s with mutex := none, ctl := .quit_destroy :: k }
  | .quit_destroy => some { s with audioPlayer := false, engine := false, ctl := k }
  | .surface_release => some { s with renderSurface := false, ctl := k }
  | .surface_attach surface =>
    if surface then some { s with renderSurface := true, ctl := .resume_guard :: k }
    else some { s with ctl := k }
  | .engine_call => if s.engine = false then none else some { s with ctl := k }
  | .load_rom rom =>
    if s.engine = false then none
    else
      match rom with
      | none => some { s with currentGame := none, ctl := k }
      | some fps => some { s with currentGame := some fps, ctl := .resume_guard :: k }
  | .set_resumeRequested b => some { s with resumeRequested := b, ctl := k }
  | .option_write name value parsed =>
    match Emulator_setOption name value parsed s.toStatics with
    | none => none
    | some g => some { s with toStatics := g, ctl := k }

/-- The next statement of the control thread; `none` when it is idle, blocked,
or dereferences `NULL`. -/
def controlStep (s : Sys) : Option Sys :=
  match s.ctl with
  | [] => none
  | op :: k => opStep s k op

/-- The host calls an entry point: possible once the previous call has returned. -/
def hostStep (c : HostCall) (s : Sys) : Option Sys :=
  if s.ctl = [] then some { s with ctl := c.body } else none

/-- A spurious wake-up of a thread blocked in `pthread_cond_wait`. -/
def spuriousStep (t : Tid) (s : Sys) : Option Sys :=
  match t with
  | .worker => some { s with workerWaiting := false }
  | .control => some { s with controlWaiting := false }

/-- What can happen next. -/
inductive Label
  | worker (now : Nat)
  | control
  | host (c : HostCall)
  | spurious (t : Tid)
  deriving DecidableEq, Repr

/-- One transition of the process. -/
def step (l : Label) (s : Sys) : Option Sys :=
  match l with
  | .worker now => workerStep now s
  | .control => controlStep s
  | .host c => hostStep c s
  | .spurious t => spuriousStep t s

/-- The state after the transitions of `tr`, in order. -/
def run : List Label → Sys → Option Sys
  | [], s => some s
  | l :: tr, s => (step l s).bind (run tr)

/-- The engine contract on what the outside world answers: a loaded game has a
positive frame rate (50 or 60 for the NES engine). -/
def Label.valid : Label → Prop
  | .host (.loadROM (some fps)) => 0 < fps
  | _ => True

/-- The states of the process reachable after a successful `Emulator_initialize`. -/
inductive Reachable : Sys → Prop
  | init (audio : Bool) : Reachable ( Emulator_initialize audio)
  | next {s t : Sys} (l : Label) : Reachable s → l.valid → step l s = some t → Reachable t

/-! ## Auxiliary predicates used in the statements -/

/-- What the adaptive pacer maintains between ticks for a game at `fps` started at
tick `t0`, as long as the product of line 193 has not wrapped: the counter is
within `0..N`, and a positive counter means the last tick was behind schedule. -/
def AdaptiveInv (N : Nat) (fps : Int) (t0 : Nat) (c : FrameTimingContext) : Prop :=
  c.fps = fps ∧ c.initialTicks = t0 ∧ t0 ≤ c.lastTicks ∧ c.lastTicks < UINT_MOD ∧
    (c.lastTicks - t0) * fps.toNat < UINT_MOD ∧
    0 ≤ c.frameSkipCounter ∧ c.frameSkipCounter ≤ N ∧
    (0 < c.frameSkipCounter → c.virtualFrameCount < realFrameCount c c.lastTicks)

/-- The ticks a run of `runEmulator` started at tick `t0` can see before the
product `(now - initialTicks) * fps` wraps: 32-bit values, not before the
previous tick `last`. -/
def TickOk (fps : Int) (t0 last now : Nat) : Prop :=
  last ≤ now ∧ now < UINT_MOD ∧ (now - t0) * fps.toNat < UINT_MOD

/-! ## Executions, and the invariant of the reachable states -/

/-- The control thread is inside the call of `pauseEmulator` after which its
caller continues with `k`. -/
def inPause (k : List Op) (s : Sys) : Bool :=
  decide (s.ctl = .pause_lock :: k) || decide (s.ctl = .pause_test :: k) ||
    decide (s.ctl = .pause_while :: k) || decide (s.ctl = .pause_wait :: k) ||
    decide (s.ctl = .pause_unlock :: k)

/-- The control thread is inside the call of `resumeEmulator` after which its
caller continues with `k`. -/
def inResume (k : List Op) (s : Sys) : Bool :=
  decide (s.ctl = .resume_guard :: k) || decide (s.ctl = .resume_lock :: k) ||
    decide (s.ctl = .resume_test :: k) || decide (s.ctl = .resume_while :: k) ||
    decide (s.ctl = .resume_wait :: k) || decide (s.ctl = .resume_unlock :: k)

/-- The state in which a call returns: `callRun inCall tr s = some t` when the
transitions of `tr` lead from `s` to `t`, every state before `t` is inside the
call and `t` is the first state outside it. -/
def callRun (inCall : Sys → Bool) : List Label → Sys → Option Sys
  | [], s => if inCall s then none else some s
  | l :: tr, s => if inCall s then (step l s).bind (callRun inCall tr) else none

/-- The state after the transitions of `tr` when every state on the way, the
first and the last included, satisfies `p`. -/
def runWhile (p : Sys → Bool) : List Label → Sys → Option Sys
  | [], s => if p s then some s else none
  | l :: tr, s => if p s then (step l s).bind (runWhile p tr) else none

/-- A scheduler: the control thread moves whenever it can, the worker otherwise. -/
def controlFirst (now : Nat) (s : Sys) : Option Sys :=
  match step Label.control s with
  | some t => some t
  | none => step (Label.worker now) s

/-- The state in which a call returns under the scheduler `controlFirst`, if it
does within `fuel` transitions. -/
def scheduleCall (inCall : Sys → Bool) (now : Nat) : Nat → Sys → Option Sys
  | 0, s => if inCall s then none else some s
  | fuel + 1, s =>
    if inCall s then (controlFirst now s).bind (scheduleCall inCall now fuel) else some s

/-- The worker holds `emuStateMutex` at these program points. -/
def WorkerPc.holds : WorkerPc → Bool
  | .whilePaused | .testQuit | .testRequestRun | .unlockTop | .testRequestPause
  | .unlockBottom => true
  | _ => false

/-- The control thread holds `emuStateMutex` at these program points. -/
def Op.holds : Op → Bool
  | .pause_test | .pause_while | .pause_unlock | .resume_test | .resume_while
  | .resume_unlock | .quit_set | .quit_unlock => true
  | _ => false

/-- Whether the control thread holds the mutex, from its next statement. -/
def ctlHolds : List Op → Bool
  | [] => false
  | op :: _ => op.holds

/-- The worker is parked or gone in these states of `emuState`. -/
def parked : EmuState → Bool
  | EMUSTATE_PAUSED | EMUSTATE_QUIT => true
  | _ => false

/-- No request is pending in these states of `emuState`. -/
def settled : EmuState → Bool
  | EMUSTATE_RUNNING | EMUSTATE_PAUSED | EMUSTATE_QUIT => true
  | _ => false

/-- Where the worker can be in each state of `emuState`. -/
def workerAt : EmuState → WorkerPc → Bool
  | EMUSTATE_RUNNING, pc =>
    pc = .unlockTop || pc = .enterRun || pc = .loopTest || pc = .loopBody
  | EMUSTATE_REQUEST_PAUSE, pc =>
    pc = .unlockTop || pc = .enterRun || pc = .loopTest || pc = .loopBody ||
      pc = .lockBottom || pc = .testRequestPause
  | EMUSTATE_PAUSED, pc =>
    pc = .start || pc = .unlockBottom || pc = .lockTop || pc = .whilePaused ||
      pc = .condWait
  | EMUSTATE_REQUEST_RUN, pc =>
    pc = .start || pc = .unlockBottom || pc = .lockTop || pc = .whilePaused ||
      pc = .condWait || pc = .testQuit || pc = .testRequestRun
  | EMUSTATE_QUIT, pc =>
    pc = .start || pc = .unlockBottom || pc = .lockTop || pc = .whilePaused ||
      pc = .condWait || pc = .testQuit || pc = .exited

/-- The states of `emuState` in which the control thread can be at a statement. -/
def headStates : Op → EmuState → Bool
  | .pause_lock, st | .pause_test, st | .resume_guard, st | .resume_lock, st
  | .resume_test, st | .unload_guard, st | .set_resumeRequested _, st
  | .option_write _ _ _, st => settled st
  | .pause_while, st | .pause_wait, st =>
    st = EMUSTATE_REQUEST_PAUSE || st = EMUSTATE_PAUSED
  | .resume_while, st | .resume_wait, st =>
    st = EMUSTATE_REQUEST_RUN || st = EMUSTATE_RUNNING
  | .resume_unlock, st => st = EMUSTATE_RUNNING || st = EMUSTATE_QUIT
  | .quit_unlock, st | .quit_destroy, st => st = EMUSTATE_QUIT
  | .load_rom rom, st =>
    parked st && (match rom with | none => true | some fps => decide (0 < fps))
  | _, st => parked st

/-- Whether the worker is known to be parked when the function of a statement
returns. -/
def Op.post : Op → Bool
  | .resume_guard | .resume_lock | .resume_test | .resume_while | .resume_wait
  | .resume_unlock | .surface_attach _ | .load_rom _ | .set_resumeRequested _
  | .option_write _ _ _ => false
  | _ => true

/-- The continuations the entry points produce: `wfCont p k` when `k` can run
from a state in which the worker is parked (if `p`) or in any settled state. -/
def wfCont : Bool → List Op → Bool
  | _, [] => true
  | p, op :: k =>
    match op with
    | .pause_lock | .unload_guard => wfCont true k
    | .resume_guard | .option_write _ _ _ => wfCont false k
    | .set_resumeRequested b => (b || decide (k.head? = some Op.pause_lock)) && wfCont false k
    | .unload_clear | .engine_call | .surface_release | .quit_lock => p && wfCont true k
    | .surface_attach _ => p && wfCont false k
    | .load_rom rom =>
      p && (match rom with | none => true | some fps => decide (0 < fps)) && wfCont false k
    | _ => false

/-- The continuation of the statement the control thread is at. -/
def headCont : Op → List Op → Bool
  | .set_resumeRequested b, k =>
    (b || decide (k.head? = some Op.pause_lock)) && wfCont false k
  | op, k => wfCont op.post k

/-- The control thread is at a statement it can be at, with a continuation the
entry points produce. -/
def ctlOk (st : EmuState) : List Op → Bool
  | [] => settled st
  | op :: k => headStates op st && headCont op k

/-- The control thread is past the guard of `resumeEmulator`. -/
def pastGuard : List Op → Bool
  | .resume_lock :: _ | .resume_test :: _ | .resume_while :: _ | .resume_wait :: _ => true
  | _ => false

/-- The control thread is at the first two statements of `pauseEmulator`. -/
def pausing : List Op → Bool
  | .pause_lock :: _ | .pause_test :: _ => true
  | _ => false

/-- The control thread is inside `pthread_cond_wait` for the request it made. -/
def controlWaitOk (st : EmuState) : List Op → Bool
  | .pause_wait :: _ => st = EMUSTATE_REQUEST_PAUSE
  | .resume_wait :: _ => st = EMUSTATE_REQUEST_RUN
  | _ => false

/-- The invariant of the reachable states. -/
structure Inv (s : Sys) : Prop where
  mutex : s.mutex = if s.wpc.holds then some Tid.worker
    else if ctlHolds s.ctl then some Tid.control else none
  excl : ¬ (s.wpc.holds = true ∧ ctlHolds s.ctl = true)
  worker : workerAt s.emuState s.wpc = true
  control : ctlOk s.emuState s.ctl = true
  resources : parked s.emuState = false →
    s.renderSurface = true ∧ s.currentGame ≠ none ∧ s.engine = true
  fpsPos : ∀ fps, s.currentGame = some fps → 0 < fps
  engineGone : s.engine = false → s.emuState = EMUSTATE_QUIT
  guardPassed : pastGuard s.ctl = true →
    s.renderSurface = true ∧ s.currentGame ≠ none ∧ s.resumeRequested = true
  requested : s.emuState = EMUSTATE_RUNNING ∨ s.emuState = EMUSTATE_REQUEST_RUN →
    s.resumeRequested = true ∨ pausing s.ctl = true
  controlWait : s.controlWaiting = true → controlWaitOk s.emuState s.ctl = true
  workerWait : s.workerWaiting = true →
    s.wpc = WorkerPc.condWait ∧ s.emuState = EMUSTATE_PAUSED

/-- The stages of a call of `pauseEmulator` (continuation `k`) entered while
`emuState` is `EMUSTATE_RUNNING`: before the request, between the request and the
end of the wait, at the final unlock. -/
def PausePhase (k : List Op) (s : Sys) : Prop :=
  ((s.ctl = Op.pause_lock :: k ∨ s.ctl = Op.pause_test :: k) ∧
      s.emuState = EMUSTATE_RUNNING) ∨
    ((s.ctl = Op.pause_while :: k ∨ s.ctl = Op.pause_wait :: k) ∧
      (s.emuState = EMUSTATE_REQUEST_PAUSE ∨ s.emuState = EMUSTATE_PAUSED)) ∨
    (s.ctl = Op.pause_unlock :: k ∧ s.emuState = EMUSTATE_PAUSED)

/-- The stages of a call of `resumeEmulator` (continuation `k`) entered while
`emuState` is `EMUSTATE_PAUSED` with `resumeRequested` set, a game loaded and a
surface attached. -/
def ResumePhase (k : List Op) (s : Sys) : Prop :=
  ((s.ctl = Op.resume_guard :: k ∨ s.ctl = Op.resume_lock :: k ∨
        s.ctl = Op.resume_test :: k) ∧
      s.emuState = EMUSTATE_PAUSED ∧ s.resumeRequested = true ∧ s.renderSurface = true ∧
      s.currentGame ≠ none) ∨
    ((s.ctl = Op.resume_while :: k ∨ s.ctl = Op.resume_wait :: k) ∧
      (s.emuState = EMUSTATE_REQUEST_RUN ∨ s.emuState = EMUSTATE_RUNNING)) ∨
    (s.ctl = Op.resume_unlock :: k ∧ s.emuState = EMUSTATE_RUNNING)

/-- No `resumeEmulator` has set `EMUSTATE_REQUEST_RUN`. -/
def noRunRequest (s : Sys) : Bool :=
  decide (s.emuState ≠ EMUSTATE_REQUEST_RUN)

/-! ## Concrete executions used as examples -/

/-- The host attaches a surface and loads a 60 fps game right after
`Emulator_initialize`; the trace stops where `Emulator_loadROM` calls
`resumeEmulator` (line 406). -/
def bootTrace : List Label :=
  [Label.host (HostCall.setRenderSurface true), Label.control, Label.control, Label.control,
    Label.control, Label.control, Label.control,
    Label.host (HostCall.loadROM (some 60)), Label.control, Label.control]

/-- The state at the end of `bootTrace`. -/
def loadedPaused : Sys :=
  { Emulator_initialize true with
    currentGame := some 60
    renderSurface := true
    ctl := [Op.resume_guard] }

/-- `Emulator_loadROM` returns, the worker executes lines 458-459 of
`Emulator_run`, then the host calls `Emulator_resume`, which sets
`resumeRequested` and calls `resumeEmulator`. -/
def resumeTrace : List Label :=
  [Label.control, Label.worker 0, Label.host HostCall.resume, Label.control]

/-- The state at the end of `bootTrace ++ resumeTrace`. -/
def resumeReady : Sys :=
  { loadedPaused with resumeRequested := true, wpc := WorkerPc.lockTop }

/-- As `resumeTrace`, but the worker has not started yet. -/
def earlyResumeTrace : List Label :=
  [Label.control, Label.host HostCall.resume, Label.control]

/-- The state at the end of `bootTrace ++ earlyResumeTrace`: `resumeEmulator` is
called with every precondition met, before the worker has executed anything. -/
def resumeEarly : Sys :=
  { loadedPaused with resumeRequested := true }

/-- The handshake of `resumeEmulator` with the worker, the worker's entry into
`runEmulator`, then the host calls `Emulator_pause`, whose first statement clears
`resumeRequested`. -/
def pauseEntryTrace : List Label :=
  [Label.control, Label.control, Label.control, Label.control,
    Label.worker 0, Label.worker 0, Label.worker 0, Label.worker 0, Label.worker 0,
    Label.control, Label.control, Label.control, Label.worker 0,
    Label.host HostCall.pause, Label.control]

/-- The state at the end of `bootTrace ++ resumeTrace ++ pauseEntryTrace`: the
control thread is about to execute `pauseEmulator` while the worker runs frames. -/
def runningPause : Sys :=
  { resumeReady with
    emuState := EMUSTATE_RUNNING
    resumeRequested := false
    wpc := WorkerPc.loopTest
    ctx := resetContext 60 0
    ctl := [Op.pause_lock] }

/-- A state after `Emulator_cleanUp`, with the worker at its test of line 465. -/
def quitState : Sys :=
  { Emulator_initialize true with
    emuState := EMUSTATE_QUIT
    engine := false
    audioPlayer := false
    mutex := some Tid.worker
    wpc := WorkerPc.testQuit }

/-! ## Properties of the option handling -/

theorem setOption_maxFrameSkips (value : String) (parsed : Int) (g : Statics) :
    Emulator_setOption "maxFrameSkips" value parsed g =
      some { g with maxFrameSkips := min 99 (max 2 parsed) } := by
  have h : (if parsed < 2 then (2 : Int) else if parsed > 99 then 99 else parsed) =
      min 99 (max 2 parsed) := by
    split_ifs <;> omega
  simp [Emulator_setOption, h]

theorem setOption_other (name value : String) (parsed : Int) (g g' : Statics)
    (hn : name ≠ "maxFrameSkips") (h : Emulator_setOption name value parsed g = some g') :
    g'.maxFrameSkips = g.maxFrameSkips := by
  unfold Emulator_setOption at h
  split_ifs at h <;> simp at h <;> subst h <;> rfl

theorem setOption_range (name value : String) (parsed : Int) (g g' : Statics)
    (h : Emulator_setOption name value parsed g = some g')
    (hg : 2 ≤ g.maxFrameSkips ∧ g.maxFrameSkips ≤ 99) :
    2 ≤ g'.maxFrameSkips ∧ g'.maxFrameSkips ≤ 99 := by
  by_cases hn : name = "maxFrameSkips"
  · subst hn
    rw [setOption_maxFrameSkips] at h
    simp at h
    subst h
    simp only
    omega
  · rw [setOption_other name value parsed g g' hn h]
    exact hg

/-- Apart from `Emulator_setOption`, no statement writes `maxFrameSkips`. -/
theorem step_maxFrameSkips (l : Label) (s t : Sys) (h : step l s = some t) :
    t.maxFrameSkips = s.maxFrameSkips ∨
      ∃ name value parsed, Emulator_setOption name value parsed s.toStatics = some t.toStatics := by
  cases l with
  | worker now =>
    left
    simp only [step, workerStep] at h
    split at h <;> (try split at h) <;> (try split at h) <;> simp at h <;> subst h <;> rfl
  | control =>
    simp only [step, controlStep] at h
    cases hc : s.ctl with
    | nil => simp [hc] at h
    | cons op k =>
      rw [hc] at h
      cases op <;> simp only [opStep] at h
      case option_write name value parsed =>
        right
        refine ⟨name, value, parsed, ?_⟩
        split at h
        · simp at h
        · rename_i g hg
          simp at h
          subst h
          exact hg
      all_goals
        left
        (try split at h) <;> (try split at h) <;> simp at h <;> subst h <;> rfl
  | host c =>
    left
    simp only [step, hostStep] at h
    split at h <;> simp at h
    subst h
    rfl
  | spurious t =>
    left
    cases t <;> simp [step, spuriousStep] at h <;> subst h <;> rfl

theorem reachable_maxFrameSkips (s : Sys) (h : Reachable s) :
    2 ≤ s.maxFrameSkips ∧ s.maxFrameSkips ≤ 99 := by
  induction h with
  | init audio => simp [ Emulator_initialize]
  | next l _ _ hstep ih =>
    rcases step_maxFrameSkips l _ _ hstep with h | ⟨name, value, parsed, h⟩
    · rw [h]; exact ih
    · exact setOption_range name value parsed _ _ h ih

/-- C8: `Emulator_setOption("maxFrameSkips", value)` leaves `maxFrameSkips` equal to
`min(99, max(2, n))` for the integer `n` parsed from the value and changes no other
static; `2 <= maxFrameSkips <= 99` holds in every state reachable after
`Emulator_initialize`; setting any other option leaves `maxFrameSkips` unchanged. -/
theorem maxFrameSkips_clamped :
    (∀ (value : String) (n : Int) (g : Statics),
      Emulator_setOption "maxFrameSkips" value n g =
        some { g with maxFrameSkips := min 99 (max 2 n) }) ∧
    (∀ s : Sys, Reachable s → 2 ≤ s.maxFrameSkips ∧ s.maxFrameSkips ≤ 99) ∧
    (∀ (name value : String) (n : Int) (g g' : Statics), name ≠ "maxFrameSkips" →
      Emulator_setOption name value n g = some g' → g'.maxFrameSkips = g.maxFrameSkips) :=
  ⟨setOption_maxFrameSkips, reachable_maxFrameSkips, setOption_other⟩

/-! ## Properties of the frame pacer -/

theorem runTicks_length (a : Bool) (m : Int) (ticks : List Nat) :
    ∀ c, (runTicks a m c ticks).length = ticks.length := by
  induction ticks with
  | nil => intro c; rfl
  | cons now rest ih => intro c; simp [runTicks, ih]

theorem runTicks_take (a : Bool) (m : Int) (ticks : List Nat) :
    ∀ (n : Nat) (c : FrameTimingContext),
      (runTicks a m c ticks).take n = runTicks a m c (ticks.take n) := by
  induction ticks with
  | nil => intro n c; simp [runTicks]
  | cons now rest ih =>
    intro n c
    cases n with
    | zero => simp [runTicks]
    | succ n => simp [runTicks, ih]

theorem runTicks_drop (a : Bool) (m : Int) (ticks : List Nat) :
    ∀ (n : Nat) (c : FrameTimingContext),
      (runTicks a m c ticks).drop n =
        runTicks a m (contextAfter a m c (ticks.take n)) (ticks.drop n) := by
  induction ticks with
  | nil => intro n c; simp [runTicks, contextAfter]
  | cons now rest ih =>
    intro n c
    cases n with
    | zero => simp [runTicks, contextAfter]
    | succ n => simp [runTicks, contextAfter, ih]

/-- The frames of the window of `n` ticks that starts at tick `i`. -/
theorem runTicks_window (a : Bool) (m : Int) (ticks : List Nat) (i n : Nat)
    (c : FrameTimingContext) :
    ((runTicks a m c ticks).drop i).take n =
      runTicks a m (contextAfter a m c (ticks.take i)) ((ticks.drop i).take n) := by
  rw [runTicks_drop, runTicks_take]

/-! ### Fixed cadence (`autoFrameSkip = false`) -/

theorem loopBody_fixed_counter (m : Int) (now : Nat) (c : FrameTimingContext) :
    (loopBody false m now c).1.frameSkipCounter =
        (if c.frameSkipCounter + 1 > m then 0 else c.frameSkipCounter + 1) ∧
      (loopBody false m now c).2.frameSkipCounter =
        (if c.frameSkipCounter + 1 > m then 0 else c.frameSkipCounter + 1) ∧
      (loopBody false m now c).2.skip =
        decide ((if c.frameSkipCounter + 1 > m then 0 else c.frameSkipCounter + 1) > 0) := by
  simp only [loopBody, pace, roundRobin]
  split_ifs <;> simp_all

/-- Closed form of the fixed cadence: `i` ticks after the counter was `k`, the
frame handed to the engine carries the counter `(k + i + 1) mod (N + 1)`. -/
theorem fixed_closed_form (N : Nat) (ticks : List Nat) :
    ∀ (c : FrameTimingContext) (k i : Nat), c.frameSkipCounter = k → k ≤ N → i < ticks.length →
      ((runTicks false N c ticks)[i]?).map Frame.frameSkipCounter =
        some (((k + i + 1) % (N + 1) : Nat) : Int) := by
  induction ticks with
  | nil => intro c k i _ _ hi; simp at hi
  | cons now rest ih =>
    intro c k i hk hkN hi
    obtain ⟨h1, h2, _⟩ := loopBody_fixed_counter N now c
    have hnext : (if c.frameSkipCounter + 1 > (N : Int) then (0 : Int) else c.frameSkipCounter + 1) =
        (((k + 1) % (N + 1) : Nat) : Int) := by
      rw [hk]
      by_cases hN : k = N
      · subst hN
        simp
      · have hlt : k + 1 < N + 1 := by omega
        rw [Nat.mod_eq_of_lt hlt]
        have : ¬ ((k : Int) + 1 > N) := by omega
        simp [this]
    cases i with
    | zero =>
      simp only [runTicks, List.getElem?_cons_zero, Option.map_some']
      rw [h2, hnext]
    | succ j =>
      simp only [runTicks, List.getElem?_cons_succ]
      have hj : j < rest.length := by simpa using hi
      have hk' : (k + 1) % (N + 1) ≤ N := by
        have := Nat.mod_lt (k + 1) (Nat.succ_pos N)
        omega
      rw [ih _ ((k + 1) % (N + 1)) j (by rw [h1, hnext]) hk' hj]
      congr 2
      rw [Nat.add_assoc ((k + 1) % (N + 1)), Nat.mod_add_mod]
      congr 1
      omega

/-- Number of frames with counter zero among at most `N + 1` consecutive ticks
of the fixed cadence, from a context whose counter is `k`. -/
theorem fixed_count_zero (N : Nat) (ticks : List Nat) :
    ∀ (c : FrameTimingContext) (k : Nat), c.frameSkipCounter = k → k ≤ N →
      ticks.length ≤ N + 1 →
      (runTicks false N c ticks).countP (fun f => decide (f.frameSkipCounter = 0)) =
        if N + 1 ≤ k + ticks.length then 1 else 0 := by
  induction ticks with
  | nil =>
    intro c k _ hkN _
    have : ¬ (N + 1 ≤ k) := by omega
    simp [runTicks, this]
  | cons now rest ih =>
    intro c k hk hkN hlen
    obtain ⟨h1, h2, _⟩ := loopBody_fixed_counter N now c
    have hrest : rest.length ≤ N := by simpa using hlen
    simp only [runTicks, List.countP_cons, List.length_cons]
    by_cases hN : k = N
    · subst hN
      have hz : (if c.frameSkipCounter + 1 > (k : Int) then (0 : Int)
          else c.frameSkipCounter + 1) = 0 := by
        rw [hk]; simp
      rw [ih _ 0 (by rw [h1, hz]; rfl) (Nat.zero_le _) (by omega), h2, hz]
      have h1' : ¬ (k + 1 ≤ 0 + rest.length) := by omega
      have h2' : k + 1 ≤ k + (rest.length + 1) := by omega
      simp [h2']
      omega
    · have hnz : (if c.frameSkipCounter + 1 > (N : Int) then (0 : Int)
          else c.frameSkipCounter + 1) = ((k + 1 : Nat) : Int) := by
        rw [hk]
        have : ¬ ((k : Int) + 1 > N) := by omega
        simp [this]
      rw [ih _ (k + 1) (by rw [h1, hnz]) (by omega) (by omega), h2, hnz]
      have : ¬ (((k + 1 : Nat) : Int) = 0) := by omega
      simp only [this, decide_False, Bool.false_eq_true, if_false, Nat.add_zero]
      congr 1
      apply propext
      constructor <;> intro h <;> omega

theorem fixed_skip_iff (N : Nat) (ticks : List Nat) :
    ∀ (c : FrameTimingContext) (k : Nat), c.frameSkipCounter = k → k ≤ N →
      ∀ f ∈ runTicks false N c ticks,
        0 ≤ f.frameSkipCounter ∧ f.skip = decide (f.frameSkipCounter > 0) := by
  induction ticks with
  | nil => intro c k _ _ f hf; simp [runTicks] at hf
  | cons now rest ih =>
    intro c k hk hkN f hf
    obtain ⟨h1, h2, h3⟩ := loopBody_fixed_counter N now c
    simp only [runTicks, List.mem_cons] at hf
    rcases hf with hf | hf
    · subst hf
      rw [h3, h2]
      refine ⟨?_, rfl⟩
      rw [hk]; split_ifs <;> omega
    · by_cases hN : (k : Int) + 1 > N
      · exact ih _ 0 (by rw [h1, hk]; simp [hN]) (Nat.zero_le _) f hf
      · exact ih _ (k + 1) (by rw [h1, hk]; simp [hN]) (by omega) f hf

theorem fixed_context_after (N : Nat) (ticks : List Nat) :
    ∀ (c : FrameTimingContext) (k : Nat), c.frameSkipCounter = k → k ≤ N →
      ∃ k2 : Nat, (contextAfter false N c ticks).frameSkipCounter = k2 ∧ k2 ≤ N := by
  induction ticks with
  | nil => intro c k hk hkN; exact ⟨k, hk, hkN⟩
  | cons now rest ih =>
    intro c k hk hkN
    obtain ⟨h1, _, _⟩ := loopBody_fixed_counter N now c
    simp only [contextAfter]
    by_cases hN : (k : Int) + 1 > N
    · exact ih _ 0 (by rw [h1, hk]; simp [hN]) (Nat.zero_le _)
    · exact ih _ (k + 1) (by rw [h1, hk]; simp [hN]) (by omega)

/-- C7: with `autoFrameSkip = false` and `maxFrameSkips = N`, whatever the frame
rate and the tick times, the `frameSkipCounter` handed to `engine->runFrame` at
tick `i` (counted from 0 after the reset context) is `(i + 1) mod (N + 1)`; it is
therefore periodic with period `N + 1`, and every window of `N + 1` consecutive
ticks has exactly one tick with counter zero (rendered, `skip = false`) and `N`
ticks with a positive counter (skipped, `skip = true`). -/
theorem fixed_cadence (N : Nat) (fps : Int) (t0 : Nat) (ticks : List Nat) :
    (∀ i, i < ticks.length →
      ((runTicks false N (resetContext fps t0) ticks)[i]?).map Frame.frameSkipCounter =
        some (((i + 1) % (N + 1) : Nat) : Int)) ∧
    (∀ i, i + (N + 1) < ticks.length →
      ((runTicks false N (resetContext fps t0) ticks)[i + (N + 1)]?).map Frame.frameSkipCounter =
        ((runTicks false N (resetContext fps t0) ticks)[i]?).map Frame.frameSkipCounter) ∧
    (∀ i, i + (N + 1) ≤ ticks.length →
      (((runTicks false N (resetContext fps t0) ticks).drop i).take (N + 1)).countP
          (fun f => decide (f.frameSkipCounter = 0)) = 1 ∧
      (((runTicks false N (resetContext fps t0) ticks).drop i).take (N + 1)).countP
          (fun f => decide (f.frameSkipCounter > 0)) = N ∧
      (((runTicks false N (resetContext fps t0) ticks).drop i).take (N + 1)).countP
          (fun f => !f.skip) = 1 ∧
      (((runTicks false N (resetContext fps t0) ticks).drop i).take (N + 1)).countP
          (fun f => f.skip) = N) := by
  have hcf : ∀ i, i < ticks.length →
      ((runTicks false N (resetContext fps t0) ticks)[i]?).map Frame.frameSkipCounter =
        some (((i + 1) % (N + 1) : Nat) : Int) := by
    intro i hi
    have := fixed_closed_form N ticks (resetContext fps t0) 0 i rfl (Nat.zero_le _) hi
    simpa using this
  refine ⟨hcf, ?_, ?_⟩
  · intro i hi
    rw [hcf i (by omega), hcf (i + (N + 1)) hi]
    congr 2
    rw [show i + (N + 1) + 1 = (i + 1) + (N + 1) by omega, Nat.add_mod_right]
  · intro i hi
    rw [runTicks_window]
    obtain ⟨k, hk, hkN⟩ :=
      fixed_context_after N (ticks.take i) (resetContext fps t0) 0 rfl (Nat.zero_le _)
    have hlen : ((ticks.drop i).take (N + 1)).length = N + 1 := by
      rw [List.length_take, List.length_drop]; omega
    have hzero := fixed_count_zero N ((ticks.drop i).take (N + 1)) _ k hk hkN (by omega)
    rw [hlen, if_pos (by omega)] at hzero
    have hmem := fixed_skip_iff N ((ticks.drop i).take (N + 1)) _ k hk hkN
    have hpos : (runTicks false N (contextAfter false N (resetContext fps t0) (ticks.take i))
        ((ticks.drop i).take (N + 1))).countP (fun f => decide (f.frameSkipCounter > 0)) = N := by
      have htot := List.length_eq_countP_add_countP (fun f : Frame => decide (f.frameSkipCounter = 0))
        (runTicks false N (contextAfter false N (resetContext fps t0) (ticks.take i))
          ((ticks.drop i).take (N + 1)))
      rw [runTicks_length, hlen, hzero] at htot
      have hcongr : (runTicks false N (contextAfter false N (resetContext fps t0) (ticks.take i))
          ((ticks.drop i).take (N + 1))).countP (fun f => decide (f.frameSkipCounter > 0)) =
          (runTicks false N (contextAfter false N (resetContext fps t0) (ticks.take i))
          ((ticks.drop i).take (N + 1))).countP
            (fun f => decide ¬ (decide (f.frameSkipCounter = 0) = true)) := by
        apply List.countP_congr
        intro f hf
        have := (hmem f hf).1
        simp only [decide_eq_true_eq]
        omega
      rw [hcongr]
      omega
    refine ⟨hzero, hpos, ?_, ?_⟩
    · refine Eq.trans ?_ hzero
      apply List.countP_congr
      intro f hf
      obtain ⟨h0, hs⟩ := hmem f hf
      rw [hs]
      simp only [Bool.not_eq_true', decide_eq_false_iff_not, decide_eq_true_eq]
      omega
    · refine Eq.trans ?_ hpos
      apply List.countP_congr
      intro f hf
      rw [(hmem f hf).2]

theorem fixed_cadence_witness :
    List.countP (fun f => !f.skip)
        (((runTicks false 2 (resetContext 60 0) [0, 16, 33, 50, 66, 83, 100]).drop 1).take 3) = 1 ∧
      ((runTicks false 2 (resetContext 60 0) [0, 16, 33, 50, 66, 83, 100]).map Frame.skip =
        [true, true, false, true, true, false, true]) :=
  ⟨((fixed_cadence 2 60 0 [0, 16, 33, 50, 66, 83, 100]).2.2 1 (by decide)).2.2.1, by decide⟩

/-! ### Adaptive skipping (`autoFrameSkip = true`) -/

/-- The three branches of one adaptive iteration. -/
theorem loopBody_auto (m : Int) (now : Nat) (c : FrameTimingContext) :
    (loopBody true m now c).2.realFrameCount = realFrameCount c now ∧
    (loopBody true m now c).2.virtualFrameCount = (c.virtualFrameCount + 1) % UINT_MOD ∧
    (loopBody true m now c).2.frameSkipCounter = (loopBody true m now c).1.frameSkipCounter ∧
    (loopBody true m now c).2.skip = decide ((loopBody true m now c).1.frameSkipCounter > 0) ∧
    (loopBody true m now c).1.fps = c.fps ∧
    (loopBody true m now c).1.initialTicks = c.initialTicks ∧
    (loopBody true m now c).1.lastTicks = now % UINT_MOD ∧
    ((realFrameCount c now > (c.virtualFrameCount + 1) % UINT_MOD ∧ c.frameSkipCounter < m ∧
        (loopBody true m now c).2.branch = Branch.catchUp ∧
        (loopBody true m now c).1.frameSkipCounter = c.frameSkipCounter + 1 ∧
        (loopBody true m now c).1.virtualFrameCount = (c.virtualFrameCount + 1) % UINT_MOD) ∨
      (realFrameCount c now ≥ (c.virtualFrameCount + 1) % UINT_MOD ∧
        ¬ (realFrameCount c now > (c.virtualFrameCount + 1) % UINT_MOD ∧ c.frameSkipCounter < m) ∧
        (loopBody true m now c).2.branch = Branch.snap ∧
        (loopBody true m now c).1.frameSkipCounter = 0 ∧
        (loopBody true m now c).1.virtualFrameCount = realFrameCount c now) ∨
      (realFrameCount c now < (c.virtualFrameCount + 1) % UINT_MOD ∧
        (loopBody true m now c).2.branch = Branch.ahead ∧
        (loopBody true m now c).1.frameSkipCounter = c.frameSkipCounter ∧
        (loopBody true m now c).1.virtualFrameCount = (c.virtualFrameCount + 1) % UINT_MOD)) := by
  refine ⟨rfl, rfl, rfl, rfl, rfl, rfl, rfl, ?_⟩
  simp only [loopBody, pace, roundRobin]
  by_cases h1 : realFrameCount c now ≥ (c.virtualFrameCount + 1) % UINT_MOD
  · by_cases h2 : realFrameCount c now > (c.virtualFrameCount + 1) % UINT_MOD ∧
        c.frameSkipCounter < m
    · left
      simp [h1, h2]
    · right; left
      refine ⟨h1, h2, ?_⟩
      simp [h1, h2]
  · right; right
    refine ⟨by omega, ?_⟩
    simp [h1]

/-- The snap branch sets `virtualFrameCount = realFrameCount` and, in adaptive
mode, `frameSkipCounter = 0`. -/
theorem loopBody_snap (m : Int) (now : Nat) (c : FrameTimingContext)
    (h : (loopBody true m now c).2.branch = Branch.snap) :
    (loopBody true m now c).1.virtualFrameCount = (loopBody true m now c).2.realFrameCount ∧
      (loopBody true m now c).1.frameSkipCounter = 0 ∧
      (loopBody true m now c).2.skip = false := by
  obtain ⟨hr, _, _, hs, _, _, _, hb⟩ := loopBody_auto m now c
  rcases hb with ⟨_, _, hb, _, _⟩ | ⟨_, _, _, hk, hv⟩ | ⟨_, hb, _, _⟩
  · rw [hb] at h; cases h
  · rw [hs, hk, hv, hr]; simp
  · rw [hb] at h; cases h

theorem auto_counter_step (N : Nat) (now : Nat) (c : FrameTimingContext)
    (h : 0 ≤ c.frameSkipCounter ∧ c.frameSkipCounter ≤ N) :
    0 ≤ (loopBody true N now c).1.frameSkipCounter ∧
      (loopBody true N now c).1.frameSkipCounter ≤ N := by
  obtain ⟨_, _, _, _, _, _, _, hb⟩ := loopBody_auto N now c
  rcases hb with ⟨_, hlt, _, hk, _⟩ | ⟨_, _, _, hk, _⟩ | ⟨_, _, hk, _⟩ <;> rw [hk] <;> omega

theorem auto_context_after (N : Nat) (ticks : List Nat) :
    ∀ c : FrameTimingContext, 0 ≤ c.frameSkipCounter ∧ c.frameSkipCounter ≤ N →
      0 ≤ (contextAfter true N c ticks).frameSkipCounter ∧
        (contextAfter true N c ticks).frameSkipCounter ≤ N := by
  induction ticks with
  | nil => intro c h; exact h
  | cons now rest ih => intro c h; exact ih _ (auto_counter_step N now c h)

theorem auto_frames_bounded (N : Nat) (ticks : List Nat) :
    ∀ c : FrameTimingContext, 0 ≤ c.frameSkipCounter ∧ c.frameSkipCounter ≤ N →
      ∀ f ∈ runTicks true N c ticks, 0 ≤ f.frameSkipCounter ∧ f.frameSkipCounter ≤ N := by
  induction ticks with
  | nil => intro c _ f hf; simp [runTicks] at hf
  | cons now rest ih =>
    intro c h f hf
    simp only [runTicks, List.mem_cons] at hf
    rcases hf with hf | hf
    · subst hf
      rw [(loopBody_auto N now c).2.2.1]
      exact auto_counter_step N now c h
    · exact ih _ (auto_counter_step N now c h) f hf

/-- A run of behind-schedule ticks without a snap raises the counter at every tick. -/
theorem auto_behind_no_snap (N : Nat) (ticks : List Nat) :
    ∀ c : FrameTimingContext,
      (∀ f ∈ runTicks true N c ticks,
        f.realFrameCount > f.virtualFrameCount ∧ f.branch ≠ Branch.snap) →
      (contextAfter true N c ticks).frameSkipCounter = c.frameSkipCounter + ticks.length := by
  induction ticks with
  | nil => intro c _; simp [contextAfter]
  | cons now rest ih =>
    intro c h
    simp only [runTicks, List.forall_mem_cons] at h
    obtain ⟨⟨hbehind, hns⟩, hrest⟩ := h
    obtain ⟨hr, hv, _, _, _, _, _, hb⟩ := loopBody_auto N now c
    simp only [contextAfter]
    rw [ih _ hrest]
    rcases hb with ⟨_, _, _, hk, _⟩ | ⟨_, _, hsnap, _, _⟩ | ⟨hlt, _, _, _⟩
    · rw [hk]; simp only [List.length_cons]; push_cast; ring
    · exact absurd hsnap hns
    · rw [hr, hv] at hbehind; omega

/-- C6: with `autoFrameSkip = true` and `maxFrameSkips = N`, from any context with
`frameSkipCounter = 0` and for any ticks, `0 <= frameSkipCounter <= N` holds after
every tick; every run of `N + 1` consecutive behind-schedule ticks (ticks with
`realFrameCount > virtualFrameCount` after the increment) contains a tick that
takes the snap branch; and a tick that takes the snap branch leaves
`virtualFrameCount = realFrameCount` and `frameSkipCounter = 0`. -/
theorem catch_up_bound (N : Nat) (c : FrameTimingContext) (hc : c.frameSkipCounter = 0)
    (ticks : List Nat) :
    (∀ n, 0 ≤ (contextAfter true N c (ticks.take n)).frameSkipCounter ∧
      (contextAfter true N c (ticks.take n)).frameSkipCounter ≤ N) ∧
    (∀ f ∈ runTicks true N c ticks, 0 ≤ f.frameSkipCounter ∧ f.frameSkipCounter ≤ N) ∧
    (∀ i, i + (N + 1) ≤ ticks.length →
      (∀ f ∈ ((runTicks true N c ticks).drop i).take (N + 1),
        f.realFrameCount > f.virtualFrameCount) →
      ∃ f ∈ ((runTicks true N c ticks).drop i).take (N + 1), f.branch = Branch.snap) ∧
    (∀ (now : Nat) (d : FrameTimingContext), (loopBody true N now d).2.branch = Branch.snap →
      (loopBody true N now d).1.virtualFrameCount = (loopBody true N now d).2.realFrameCount ∧
        (loopBody true N now d).1.frameSkipCounter = 0) := by
  have h0 : 0 ≤ c.frameSkipCounter ∧ c.frameSkipCounter ≤ N := by rw [hc]; omega
  refine ⟨fun n => auto_context_after N _ c h0, auto_frames_bounded N ticks c h0, ?_, ?_⟩
  · intro i hi hbehind
    by_contra hno
    rw [runTicks_window] at hbehind hno
    have hlen : ((ticks.drop i).take (N + 1)).length = N + 1 := by
      rw [List.length_take, List.length_drop]; omega
    have hstart := auto_context_after N (ticks.take i) c h0
    have hrun := auto_behind_no_snap N ((ticks.drop i).take (N + 1))
      (contextAfter true N c (ticks.take i))
      (fun f hf => ⟨hbehind f hf, fun hs => hno ⟨f, hf, hs⟩⟩)
    have hend := auto_context_after N ((ticks.drop i).take (N + 1))
      (contextAfter true N c (ticks.take i)) hstart
    rw [hrun, hlen] at hend
    push_cast at hend
    omega
  · intro now d h
    exact ⟨(loopBody_snap N now d h).1, (loopBody_snap N now d h).2.1⟩

theorem catch_up_bound_witness :
    (resetContext 60 0).frameSkipCounter = 0 ∧
      ∃ f ∈ ((runTicks true 2 (resetContext 60 0) [0, 50, 100, 150, 200, 250, 300]).drop 1).take 3,
        f.branch = Branch.snap :=
  ⟨rfl, (catch_up_bound 2 (resetContext 60 0) rfl [0, 50, 100, 150, 200, 250, 300]).2.2.1 1
    (by decide) (by decide)⟩

/-! ### The real frame count and the skip runs while the product does not wrap -/

theorem realFrameCount_exact (c : FrameTimingContext) (now : Nat)
    (hfps : 0 < c.fps) (hint : c.fps < 2147483648) (h0 : c.initialTicks ≤ now)
    (hnow : now < UINT_MOD) (hno : (now - c.initialTicks) * c.fps.toNat < UINT_MOD) :
    realFrameCount c now = (now - c.initialTicks) * c.fps.toNat / 1000 := by
  have hsub : usub now c.initialTicks = now - c.initialTicks := by
    unfold usub UINT_MOD at *
    omega
  have hu : toUnsigned c.fps = c.fps.toNat := by
    unfold toUnsigned
    rw [Int.emod_eq_of_lt (le_of_lt hfps) (by omega)]
  unfold realFrameCount umul
  rw [hsub, hu, Nat.mod_eq_of_lt hno]

theorem realFrameCount_congr (c d : FrameTimingContext) (now : Nat)
    (hf : d.fps = c.fps) (hi : d.initialTicks = c.initialTicks) :
    realFrameCount d now = realFrameCount c now := by
  unfold realFrameCount
  rw [hf, hi]

theorem realFrameCount_mono (c : FrameTimingContext) (a b : Nat)
    (hfps : 0 < c.fps) (hint : c.fps < 2147483648) (h0 : c.initialTicks ≤ a) (hab : a ≤ b)
    (hb : b < UINT_MOD) (hno : (b - c.initialTicks) * c.fps.toNat < UINT_MOD) :
    realFrameCount c a ≤ realFrameCount c b := by
  have hle : (a - c.initialTicks) * c.fps.toNat ≤ (b - c.initialTicks) * c.fps.toNat :=
    Nat.mul_le_mul_right _ (by omega)
  rw [realFrameCount_exact c a hfps hint h0 (by omega) (by omega),
    realFrameCount_exact c b hfps hint (by omega) hb hno]
  exact Nat.div_le_div_right hle

/-- One adaptive tick keeps `AdaptiveInv`, and a skipped frame raises the counter. -/
theorem adaptive_step (N : Nat) (fps : Int) (t0 now : Nat) (c : FrameTimingContext)
    (hfps : 0 < fps) (hint : fps < 2147483648) (hc : AdaptiveInv N fps t0 c)
    (ht : TickOk fps t0 c.lastTicks now) :
    AdaptiveInv N fps t0 (loopBody true N now c).1 ∧
      (loopBody true N now c).1.lastTicks = now ∧
      ((loopBody true N now c).2.skip = true →
        (loopBody true N now c).1.frameSkipCounter = c.frameSkipCounter + 1) := by
  obtain ⟨hf, hi, hl0, hlM, hlno, hk0, hkN, hbehind⟩ := hc
  obtain ⟨hle, hnowM, hno⟩ := ht
  obtain ⟨_, _, _, hs, hf', hi', hl', hb⟩ := loopBody_auto N now c
  have hlast : (loopBody true N now c).1.lastTicks = now := by
    rw [hl']; exact Nat.mod_eq_of_lt hnowM
  have hreal : realFrameCount (loopBody true N now c).1 (loopBody true N now c).1.lastTicks =
      realFrameCount c now := by
    rw [hlast]; exact realFrameCount_congr c _ now hf' hi'
  have hmono : realFrameCount c c.lastTicks ≤ realFrameCount c now :=
    realFrameCount_mono c c.lastTicks now (by rw [hf]; exact hfps) (by rw [hf]; exact hint)
      (by rw [hi]; exact hl0) hle hnowM (by rw [hi, hf]; exact hno)
  have hmod : (c.virtualFrameCount + 1) % UINT_MOD ≤ c.virtualFrameCount + 1 :=
    Nat.mod_le _ _
  refine ⟨⟨by rw [hf', hf], by rw [hi', hi], by rw [hlast]; omega, by rw [hlast]; exact hnowM,
    by rw [hlast]; exact hno, ?_, ?_, ?_⟩, hlast, ?_⟩
  · rcases hb with ⟨_, _, _, hk, _⟩ | ⟨_, _, _, hk, _⟩ | ⟨_, _, hk, _⟩ <;> rw [hk] <;> omega
  · rcases hb with ⟨_, _, _, hk, _⟩ | ⟨_, _, _, hk, _⟩ | ⟨_, _, hk, _⟩ <;> rw [hk] <;> omega
  · intro hpos
    rw [hreal]
    rcases hb with ⟨hgt, _, _, _, hv⟩ | ⟨_, _, _, hk, _⟩ | ⟨hlt, _, hk, _⟩
    · rw [hv]; exact hgt
    · rw [hk] at hpos; omega
    · rw [hk] at hpos
      have := hbehind hpos
      omega
  · intro hskip
    rw [hs] at hskip
    have hpos : 0 < (loopBody true N now c).1.frameSkipCounter := by simpa using hskip
    rcases hb with ⟨_, _, _, hk, _⟩ | ⟨_, _, _, hk, _⟩ | ⟨hlt, _, hk, _⟩
    · exact hk
    · rw [hk] at hpos; omega
    · rw [hk] at hpos
      have := hbehind hpos
      omega

/-- A run of skipped frames raises the counter at every tick, so it has at most
`N` ticks. -/
theorem adaptive_skip_run (N : Nat) (fps : Int) (t0 : Nat)
    (hfps : 0 < fps) (hint : fps < 2147483648) (ticks : List Nat) :
    ∀ c : FrameTimingContext, AdaptiveInv N fps t0 c →
      (∀ t ∈ ticks, TickOk fps t0 c.lastTicks t) → ticks.Pairwise (· ≤ ·) →
      (∀ f ∈ runTicks true N c ticks, f.skip = true) →
      (contextAfter true N c ticks).frameSkipCounter = c.frameSkipCounter + ticks.length ∧
        (contextAfter true N c ticks).frameSkipCounter ≤ N := by
  induction ticks with
  | nil => intro c hc _ _ _; simp only [contextAfter]; exact ⟨by simp, hc.2.2.2.2.2.2.1⟩
  | cons now rest ih =>
    intro c hc ht hsorted hskip
    simp only [runTicks, List.forall_mem_cons] at hskip
    have hnow := ht now (List.mem_cons_self _ _)
    obtain ⟨hinv, hlast, hk⟩ := adaptive_step N fps t0 now c hfps hint hc hnow
    have hsorted' := List.pairwise_cons.mp hsorted
    have hrest : ∀ t ∈ rest, TickOk fps t0 (loopBody true N now c).1.lastTicks t := by
      intro t htm
      obtain ⟨_, h2, h3⟩ := ht t (List.mem_cons_of_mem _ htm)
      rw [hlast]
      exact ⟨hsorted'.1 t htm, h2, h3⟩
    obtain ⟨h1, h2⟩ := ih _ hinv hrest hsorted'.2 hskip.2
    simp only [contextAfter]
    refine ⟨?_, h2⟩
    rw [h1, hk hskip.1]
    simp only [List.length_cons]
    push_cast
    ring

/-- While the product of line 193 does not wrap, no window of `N + 1` consecutive
adaptive ticks is skipped entirely. -/
theorem adaptive_window (N : Nat) (fps : Int) (t0 : Nat)
    (hfps : 0 < fps) (hint : fps < 2147483648) (ticks : List Nat) :
    ∀ c : FrameTimingContext, AdaptiveInv N fps t0 c →
      (∀ t ∈ ticks, TickOk fps t0 c.lastTicks t) → ticks.Pairwise (· ≤ ·) →
      ∀ i, i + (N + 1) ≤ ticks.length →
        ∃ f ∈ ((runTicks true N c ticks).drop i).take (N + 1), f.skip = false := by
  induction ticks with
  | nil => intro c _ _ _ i hi; simp at hi
  | cons now rest ih =>
    intro c hc ht hsorted i hi
    cases i with
    | zero =>
      by_contra hno
      have hall : ∀ f ∈ runTicks true N c ((now :: rest).take (N + 1)), f.skip = true := by
        intro f hf
        by_contra hf'
        apply hno
        refine ⟨f, ?_, by simpa using hf'⟩
        rw [List.drop_zero, runTicks_take]
        exact hf
      have hrun := adaptive_skip_run N fps t0 hfps hint ((now :: rest).take (N + 1)) c hc
        (fun t htm => ht t (List.mem_of_mem_take htm))
        (hsorted.sublist (List.take_sublist _ _)) hall
      have hlen : ((now :: rest).take (N + 1)).length = N + 1 := by
        rw [List.length_take]; omega
      rw [hlen] at hrun
      have := hc.2.2.2.2.2.1
      obtain ⟨h1, h2⟩ := hrun
      rw [h1] at h2
      push_cast at h2
      omega
    | succ j =>
      have hnow := ht now (List.mem_cons_self _ _)
      obtain ⟨hinv, hlast, _⟩ := adaptive_step N fps t0 now c hfps hint hc hnow
      have hsorted' := List.pairwise_cons.mp hsorted
      have hrest : ∀ t ∈ rest, TickOk fps t0 (loopBody true N now c).1.lastTicks t := by
        intro t htm
        obtain ⟨_, h2, h3⟩ := ht t (List.mem_cons_of_mem _ htm)
        rw [hlast]
        exact ⟨hsorted'.1 t htm, h2, h3⟩
      have := ih _ hinv hrest hsorted'.2 j (by simp only [List.length_cons] at hi; omega)
      simpa [runTicks] using this

theorem resetContext_adaptiveInv (N : Nat) (fps : Int) (t0 : Nat) (ht0 : t0 < UINT_MOD) :
    AdaptiveInv N fps t0 (resetContext fps t0) := by
  have h : t0 % UINT_MOD = t0 := Nat.mod_eq_of_lt ht0
  refine ⟨rfl, h, ?_, ?_, ?_, ?_, ?_, ?_⟩ <;> simp only [resetContext, h]
  · exact le_refl _
  · exact ht0
  · simp [UINT_MOD]
  · exact le_refl _
  · exact Int.natCast_nonneg N
  · intro hlt; exact absurd hlt (lt_irrefl _)

/-! ## The invariant holds in every reachable state -/

theorem inv_init (audio : Bool) : Inv ( Emulator_initialize audio) := by
  constructor <;> simp [ Emulator_initialize, WorkerPc.holds, ctlHolds, workerAt, ctlOk, settled,
    parked, pastGuard, pausing, controlWaitOk]

theorem ctlOk_ack_run (ctl : List Op) (h : ctlOk EMUSTATE_REQUEST_RUN ctl = true) :
    ctlOk EMUSTATE_RUNNING ctl = true ∧ pausing ctl = false ∧ ctlHolds ctl = false ∨
    ctlOk EMUSTATE_RUNNING ctl = true ∧ pausing ctl = false ∧ ctlHolds ctl = true := by
  cases ctl with
  | nil => simp [ctlOk, settled] at h
  | cons op k =>
    cases op <;> simp [ctlOk, headStates, headCont, settled, parked] at h <;>
      simp [ctlOk, headStates, headCont, settled, parked, pausing, ctlHolds, Op.holds, h]

/-- What a statement of the worker changes outside its own program point. -/
theorem worker_effect (now : Nat) (s t : Sys) (h : workerStep now s = some t) :
    t.ctl = s.ctl ∧ t.resumeRequested = s.resumeRequested ∧ t.engine = s.engine ∧
    t.currentGame = s.currentGame ∧ t.renderSurface = s.renderSurface ∧
    ((t.emuState = s.emuState ∧ t.controlWaiting = s.controlWaiting) ∨
      (s.emuState = EMUSTATE_REQUEST_RUN ∧ t.emuState = EMUSTATE_RUNNING ∧
        t.controlWaiting = false) ∨
      (s.emuState = EMUSTATE_REQUEST_PAUSE ∧ t.emuState = EMUSTATE_PAUSED ∧
        t.controlWaiting = false)) := by
  rcases s with ⟨⟨st, rr, eng, game, afs, mfs, snd, aud, surf⟩, mtx, ww, cw, pc, ctx, ctl, frames⟩
  cases pc <;> simp only [workerStep] at h <;> (try split at h) <;> (try split at h) <;>
    (try (simp at h; done)) <;> (simp only [Option.some.injEq] at h; subst h) <;> simp_all

theorem worker_mutex (now : Nat) (s t : Sys) (h : workerStep now s = some t)
    (hm : s.mutex = if s.wpc.holds then some Tid.worker
      else if ctlHolds s.ctl then some Tid.control else none)
    (he : ¬ (s.wpc.holds = true ∧ ctlHolds s.ctl = true)) :
    (t.mutex = if t.wpc.holds then some Tid.worker
      else if ctlHolds t.ctl then some Tid.control else none) ∧
    ¬ (t.wpc.holds = true ∧ ctlHolds t.ctl = true) := by
  rcases s with ⟨⟨st, rr, eng, game, afs, mfs, snd, aud, surf⟩, mtx, ww, cw, pc, ctx, ctl, frames⟩
  cases hb : ctlHolds ctl <;>
  cases pc <;> simp only [workerStep] at h <;> (try split at h) <;> (try split at h) <;>
    (try (simp at h; done)) <;> (simp only [Option.some.injEq] at h; subst h) <;>
    simp_all [WorkerPc.holds]

theorem worker_at (now : Nat) (s t : Sys) (h : workerStep now s = some t)
    (hw : workerAt s.emuState s.wpc = true) : workerAt t.emuState t.wpc = true := by
  rcases s with ⟨⟨st, rr, eng, game, afs, mfs, snd, aud, surf⟩, mtx, ww, cw, pc, ctx, ctl, frames⟩
  cases pc <;> simp only [workerStep] at h <;> (try split at h) <;> (try split at h) <;>
    (try (simp at h; done)) <;> (simp only [Option.some.injEq] at h; subst h) <;>
    cases st <;> simp_all [workerAt]

theorem worker_wait (now : Nat) (s t : Sys) (h : workerStep now s = some t)
    (hw : s.workerWaiting = true → s.wpc = WorkerPc.condWait ∧ s.emuState = EMUSTATE_PAUSED) :
    t.workerWaiting = true → t.wpc = WorkerPc.condWait ∧ t.emuState = EMUSTATE_PAUSED := by
  rcases s with ⟨⟨st, rr, eng, game, afs, mfs, snd, aud, surf⟩, mtx, ww, cw, pc, ctx, ctl, frames⟩
  cases pc <;> simp only [workerStep] at h <;> (try split at h) <;> (try split at h) <;>
    (try (simp at h; done)) <;> (simp only [Option.some.injEq] at h; subst h) <;>
    simp_all

theorem ctlOk_ack_pause (ctl : List Op) (h : ctlOk EMUSTATE_REQUEST_PAUSE ctl = true) :
    ctlOk EMUSTATE_PAUSED ctl = true := by
  cases ctl with
  | nil => simp [ctlOk, settled] at h
  | cons op k =>
    cases op <;> simp [ctlOk, headStates, headCont, settled, parked] at h <;>
      simp [ctlOk, headStates, headCont, settled, parked, h]

theorem inv_worker (now : Nat) (s t : Sys) (hi : Inv s) (h : workerStep now s = some t) :
    Inv t := by
  obtain ⟨h1, h2, h3, h4, h5, h6, h7, h8, h9, h10, h11⟩ := hi
  obtain ⟨e1, e2, e3, e4, e5, e6⟩ := worker_effect now s t h
  obtain ⟨m1, m2⟩ := worker_mutex now s t h h1 h2
  refine ⟨m1, m2, worker_at now s t h h3, ?_, ?_, ?_, ?_, ?_, ?_, ?_, worker_wait now s t h h11⟩
  · rw [e1]
    rcases e6 with ⟨e, _⟩ | ⟨e, e', _⟩ | ⟨e, e', _⟩
    · rw [e]; exact h4
    · rw [e']; rw [e] at h4
      rcases ctlOk_ack_run _ h4 with h | h <;> exact h.1
    · rw [e']; rw [e] at h4; exact ctlOk_ack_pause _ h4
  · rw [e3, e4, e5]
    rcases e6 with ⟨e, _⟩ | ⟨e, e', _⟩ | ⟨e, e', _⟩
    · rw [e]; exact h5
    · intro _; apply h5; rw [e]; rfl
    · rw [e']; intro hp; simp [parked] at hp
  · rw [e4]; exact h6
  · rw [e3]
    rcases e6 with ⟨e, _⟩ | ⟨e, e', _⟩ | ⟨e, e', _⟩
    · rw [e]; exact h7
    · intro he; have := h7 he; rw [e] at this; cases this
    · intro he; have := h7 he; rw [e] at this; cases this
  · rw [e1, e2, e4, e5]; exact h8
  · rw [e1, e2]
    rcases e6 with ⟨e, _⟩ | ⟨e, e', _⟩ | ⟨e, e', _⟩
    · rw [e]; exact h9
    · intro _; apply h9; right; exact e
    · rw [e']; intro hp; simp at hp
  · rw [e1]
    rcases e6 with ⟨e, e'⟩ | ⟨_, _, e⟩ | ⟨_, _, e⟩
    · rw [e, e']; exact h10
    · rw [e]; intro hp; simp at hp
    · rw [e]; intro hp; simp at hp

theorem wfCont_entry (p : Bool) (k : List Op) (h : wfCont p k = true) :
    ctlHolds k = false ∧ pastGuard k = false ∧ (∀ st, controlWaitOk st k = false) := by
  cases k with
  | nil => simp [ctlHolds, pastGuard, controlWaitOk]
  | cons op k =>
    cases op <;> simp [wfCont] at h <;> simp [ctlHolds, Op.holds, pastGuard, controlWaitOk]

theorem headCont_entry (op : Op) (k : List Op) (h : headCont op k = true) :
    ctlHolds k = false ∧ pastGuard k = false ∧ (∀ st, controlWaitOk st k = false) := by
  cases op <;> simp only [headCont, Bool.and_eq_true] at h
  case set_resumeRequested b => exact wfCont_entry _ k h.2
  all_goals exact wfCont_entry _ k h

theorem wfCont_mono (k : List Op) (h : wfCont false k = true) : wfCont true k = true := by
  cases k with
  | nil => rfl
  | cons op k => cases op <;> simp [wfCont] at h ⊢ <;> simp [h]

/-- A continuation the entry points produce can start in any settled state, and
in a state where the worker is parked if it relies on that. -/
theorem ctlOk_pop (st : EmuState) (p : Bool) (k : List Op) (h : wfCont p k = true)
    (hp : p = true → parked st = true) (hs : settled st = true) : ctlOk st k = true := by
  cases k with
  | nil => exact hs
  | cons op k =>
    cases op <;> simp [wfCont] at h <;>
      simp_all [ctlOk, headStates, headCont, Op.post]

theorem setOption_statics (name value : String) (parsed : Int) (g g' : Statics)
    (h : Emulator_setOption name value parsed g = some g') :
    g'.emuState = g.emuState ∧ g'.resumeRequested = g.resumeRequested ∧
      g'.engine = g.engine ∧ g'.currentGame = g.currentGame ∧
      g'.renderSurface = g.renderSurface := by
  unfold Emulator_setOption at h
  split_ifs at h <;> simp at h <;> subst h <;> simp

theorem control_mutex (s t : Sys) (h : controlStep s = some t)
    (hm : s.mutex = if s.wpc.holds then some Tid.worker
      else if ctlHolds s.ctl then some Tid.control else none)
    (he : ¬ (s.wpc.holds = true ∧ ctlHolds s.ctl = true))
    (hc : ctlOk s.emuState s.ctl = true) :
    (t.mutex = if t.wpc.holds then some Tid.worker
      else if ctlHolds t.ctl then some Tid.control else none) ∧
    ¬ (t.wpc.holds = true ∧ ctlHolds t.ctl = true) := by
  rcases s with ⟨⟨st, rr, eng, game, afs, mfs, snd, aud, surf⟩, mtx, ww, cw, pc, ctx, ctl, frames⟩
  cases ctl with
  | nil => simp [controlStep] at h
  | cons op k =>
    have hk : ctlHolds k = false := by
      simp only [ctlOk, Bool.and_eq_true] at hc
      exact (headCont_entry op k hc.2).1
    simp only [controlStep] at h
    cases hb : pc.holds <;>
    cases op <;> simp only [opStep] at h <;> (try split at h) <;> (try split at h) <;>
      (try (simp at h; done)) <;> (simp only [Option.some.injEq] at h; subst h) <;>
      simp_all [ctlHolds, Op.holds]

theorem control_worker_at (s t : Sys) (h : controlStep s = some t)
    (hw : workerAt s.emuState s.wpc = true) (hc : ctlOk s.emuState s.ctl = true) :
    workerAt t.emuState t.wpc = true ∧ t.wpc = s.wpc := by
  rcases s with ⟨⟨st, rr, eng, game, afs, mfs, snd, aud, surf⟩, mtx, ww, cw, pc, ctx, ctl, frames⟩
  cases ctl with
  | nil => simp [controlStep] at h
  | cons op k =>
    simp only [controlStep] at h
    cases op <;> simp only [opStep] at h <;> (try split at h) <;> (try split at h) <;>
      (try (simp at h; done)) <;> (simp only [Option.some.injEq] at h; subst h) <;>
      (try (rename_i g hg; have := setOption_statics _ _ _ _ _ hg)) <;>
      cases st <;> simp_all [workerAt, ctlOk, headStates, parked, settled]

set_option maxHeartbeats 4000000 in
theorem control_ctl (s t : Sys) (h : controlStep s = some t)
    (hc : ctlOk s.emuState s.ctl = true)
    (hr : parked s.emuState = false →
      s.renderSurface = true ∧ s.currentGame ≠ none ∧ s.engine = true) :
    ctlOk t.emuState t.ctl = true := by
  rcases s with ⟨⟨st, rr, eng, game, afs, mfs, snd, aud, surf⟩, mtx, ww, cw, pc, ctx, ctl, frames⟩
  cases ctl with
  | nil => simp [controlStep] at h
  | cons op k =>
    simp only [controlStep] at h
    simp only [ctlOk, Bool.and_eq_true] at hc
    obtain ⟨hc1, hc2⟩ := hc
    cases op <;> simp only [opStep] at h <;> (try split at h) <;> (try split at h) <;>
      (try (simp at h; done)) <;> (simp only [Option.some.injEq] at h; subst h) <;>
      (try (rename_i g hg; have := setOption_statics _ _ _ _ _ hg)) <;>
      simp only [headCont, Op.post, Bool.and_eq_true] at hc2 <;>
      first
      | (cases st <;> simp_all [ctlOk, headStates, headCont, Op.post, wfCont, settled, parked]; done)
      | (refine ctlOk_pop _ true _ (by first | exact hc2 | exact wfCont_mono _ hc2 | exact wfCont_mono _ hc2.2) ?_ ?_ <;>
          cases st <;> simp_all [headStates, settled, parked]; done)
      | (refine ctlOk_pop _ false _ (by first | exact hc2 | exact hc2.2) ?_ ?_ <;>
          cases st <;> simp_all [headStates, settled, parked])


set_option maxHeartbeats 4000000 in
theorem control_resources (s t : Sys) (h : controlStep s = some t)
    (hc : ctlOk s.emuState s.ctl = true)
    (hr : parked s.emuState = false →
      s.renderSurface = true ∧ s.currentGame ≠ none ∧ s.engine = true)
    (hf : ∀ fps, s.currentGame = some fps → 0 < fps)
    (he : s.engine = false → s.emuState = EMUSTATE_QUIT)
    (hg : pastGuard s.ctl = true →
      s.renderSurface = true ∧ s.currentGame ≠ none ∧ s.resumeRequested = true) :
    (parked t.emuState = false →
      t.renderSurface = true ∧ t.currentGame ≠ none ∧ t.engine = true) ∧
    (∀ fps, t.currentGame = some fps → 0 < fps) ∧
    (t.engine = false → t.emuState = EMUSTATE_QUIT) := by
  rcases s with ⟨⟨st, rr, eng, game, afs, mfs, snd, aud, surf⟩, mtx, ww, cw, pc, ctx, ctl, frames⟩
  cases ctl with
  | nil => simp [controlStep] at h
  | cons op k =>
    simp only [controlStep] at h
    simp only [ctlOk, Bool.and_eq_true] at hc
    obtain ⟨hc1, _⟩ := hc
    cases op <;> simp only [opStep] at h <;> (try split at h) <;> (try split at h) <;>
      (try (simp at h; done)) <;> (simp only [Option.some.injEq] at h; subst h) <;>
      (try (rename_i g hg; have := setOption_statics _ _ _ _ _ hg)) <;>
      cases st <;> simp_all [headStates, settled, parked, pastGuard]

set_option maxHeartbeats 4000000 in
theorem control_guard (s t : Sys) (h : controlStep s = some t)
    (hc : ctlOk s.emuState s.ctl = true)
    (hg : pastGuard s.ctl = true →
      s.renderSurface = true ∧ s.currentGame ≠ none ∧ s.resumeRequested = true)
    (hq : s.emuState = EMUSTATE_RUNNING ∨ s.emuState = EMUSTATE_REQUEST_RUN →
      s.resumeRequested = true ∨ pausing s.ctl = true) :
    (pastGuard t.ctl = true →
      t.renderSurface = true ∧ t.currentGame ≠ none ∧ t.resumeRequested = true) ∧
    (t.emuState = EMUSTATE_RUNNING ∨ t.emuState = EMUSTATE_REQUEST_RUN →
      t.resumeRequested = true ∨ pausing t.ctl = true) := by
  rcases s with ⟨⟨st, rr, eng, game, afs, mfs, snd, aud, surf⟩, mtx, ww, cw, pc, ctx, ctl, frames⟩
  cases ctl with
  | nil => simp [controlStep] at h
  | cons op k =>
    simp only [controlStep] at h
    simp only [ctlOk, Bool.and_eq_true] at hc
    obtain ⟨hc1, hc2⟩ := hc
    have hk := (headCont_entry op k hc2).2.1
    cases op
    case set_resumeRequested b =>
      simp only [opStep, Option.some.injEq] at h
      subst h
      simp only [headCont, Bool.and_eq_true, Bool.or_eq_true, decide_eq_true_eq] at hc2
      refine ⟨fun hp => ?_, fun _ => ?_⟩
      · rw [hk] at hp; cases hp
      · rcases hc2.1 with hb | hb
        · exact Or.inl hb
        · right
          cases k with
          | nil => simp at hb
          | cons op2 k2 =>
            simp only [List.head?_cons, Option.some.injEq] at hb
            subst hb
            rfl
    all_goals
      simp only [opStep] at h
      (try split at h) <;> (try split at h) <;>
      (try (simp at h; done)) <;> (simp only [Option.some.injEq] at h; subst h) <;>
      (try (rename_i g hg; have := setOption_statics _ _ _ _ _ hg)) <;>
      cases st <;> simp_all [headStates, headCont, settled, parked, pastGuard, pausing]

theorem control_waits (s t : Sys) (h : controlStep s = some t)
    (hc : ctlOk s.emuState s.ctl = true)
    (h10 : s.controlWaiting = true → controlWaitOk s.emuState s.ctl = true)
    (h11 : s.workerWaiting = true →
      s.wpc = WorkerPc.condWait ∧ s.emuState = EMUSTATE_PAUSED) :
    (t.controlWaiting = true → controlWaitOk t.emuState t.ctl = true) ∧
    (t.workerWaiting = true → t.wpc = WorkerPc.condWait ∧ t.emuState = EMUSTATE_PAUSED) := by
  rcases s with ⟨⟨st, rr, eng, game, afs, mfs, snd, aud, surf⟩, mtx, ww, cw, pc, ctx, ctl, frames⟩
  cases ctl with
  | nil => simp [controlStep] at h
  | cons op k =>
    simp only [controlStep] at h
    simp only [ctlOk, Bool.and_eq_true] at hc
    obtain ⟨hc1, hc2⟩ := hc
    cases op <;> simp only [opStep] at h <;> (try split at h) <;> (try split at h) <;>
      (try (simp at h; done)) <;> (simp only [Option.some.injEq] at h; subst h) <;>
      (try (rename_i g hg; have := setOption_statics _ _ _ _ _ hg)) <;>
      cases cw <;> simp_all [controlWaitOk, headStates, settled, parked]

theorem inv_control (s t : Sys) (hi : Inv s) (h : controlStep s = some t) : Inv t := by
  obtain ⟨h1, h2, h3, h4, h5, h6, h7, h8, h9, h10, h11⟩ := hi
  obtain ⟨m1, m2⟩ := control_mutex s t h h1 h2 h4
  obtain ⟨r1, r2, r3⟩ := control_resources s t h h4 h5 h6 h7 h8
  obtain ⟨g1, g2⟩ := control_guard s t h h4 h8 h9
  obtain ⟨w1, w2⟩ := control_waits s t h h4 h10 h11
  exact ⟨m1, m2, (control_worker_at s t h h3 h4).1, control_ctl s t h h4 h5, r1, r2, r3,
    g1, g2, w1, w2⟩

theorem inv_host (c : HostCall) (s t : Sys) (hv : (Label.host c).valid) (hi : Inv s)
    (h : hostStep c s = some t) : Inv t := by
  obtain ⟨h1, h2, h3, h4, h5, h6, h7, h8, h9, h10, h11⟩ := hi
  rcases s with ⟨⟨st, rr, eng, game, afs, mfs, snd, aud, surf⟩, mtx, ww, cw, pc, ctx, ctl, frames⟩
  simp only [hostStep] at h
  split at h
  · rename_i hnil
    subst hnil
    simp only [Option.some.injEq] at h
    subst h
    have hs : settled st = true := h4
    have hcw : cw = false := by
      cases cw
      · rfl
      · simp [controlWaitOk] at h10
    have hrr : st = EMUSTATE_RUNNING ∨ st = EMUSTATE_REQUEST_RUN → rr = true := by
      intro hq
      rcases h9 hq with hr | hr
      · exact hr
      · simp [pausing] at hr
    constructor
    · cases c <;> simpa [HostCall.body, ctlHolds, Op.holds] using h1
    · cases c <;> simp [HostCall.body, ctlHolds, Op.holds]
    · exact h3
    · cases c
      case loadROM rom =>
        cases rom with
        | none => simp [HostCall.body, ctlOk, headStates, headCont, Op.post, wfCont, hs]
        | some fps =>
          have : 0 < fps := hv
          simp [HostCall.body, ctlOk, headStates, headCont, Op.post, wfCont, hs, this]
      all_goals simp [HostCall.body, ctlOk, headStates, headCont, Op.post, wfCont, hs]
    · exact h5
    · exact h6
    · exact h7
    · cases c <;> simp [HostCall.body, pastGuard]
    · intro hq; exact Or.inl (hrr hq)
    · intro hq; simp only at hq; rw [hcw] at hq; cases hq
    · exact h11
  · cases h

theorem inv_spurious (tid : Tid) (s t : Sys) (hi : Inv s) (h : spuriousStep tid s = some t) :
    Inv t := by
  obtain ⟨h1, h2, h3, h4, h5, h6, h7, h8, h9, h10, h11⟩ := hi
  cases tid <;> simp only [spuriousStep, Option.some.injEq] at h <;> subst h
  · exact ⟨h1, h2, h3, h4, h5, h6, h7, h8, h9, h10, fun hw => by simp at hw⟩
  · exact ⟨h1, h2, h3, h4, h5, h6, h7, h8, h9, fun hw => by simp at hw, h11⟩

/-- Every transition keeps the invariant. -/
theorem inv_step (l : Label) (s t : Sys) (hv : l.valid) (hi : Inv s) (h : step l s = some t) :
    Inv t := by
  cases l with
  | worker now => exact inv_worker now s t hi h
  | control => exact inv_control s t hi h
  | host c => exact inv_host c s t hv hi h
  | spurious tid => exact inv_spurious tid s t hi h

theorem reachable_inv (s : Sys) (h : Reachable s) : Inv s := by
  induction h with
  | init audio => exact inv_init audio
  | next l _ hv hstep ih => exact inv_step l _ _ hv ih hstep

/-! ## The pause / resume / quit protocol -/

theorem worker_statics (now : Nat) (s t : Sys) (h : workerStep now s = some t)
    (hs : settled s.emuState = true) : t.toStatics = s.toStatics ∧ t.ctl = s.ctl := by
  rcases s with ⟨⟨st, rr, eng, game, afs, mfs, snd, aud, surf⟩, mtx, ww, cw, pc, ctx, ctl, frames⟩
  cases pc <;> simp only [workerStep] at h <;> (try split at h) <;> (try split at h) <;>
    (try (simp at h; done)) <;> (simp only [Option.some.injEq] at h; subst h) <;>
    cases st <;> simp_all [settled]

theorem step_quit (l : Label) (s t : Sys) (hq : s.emuState = EMUSTATE_QUIT)
    (h : step l s = some t) : t.emuState = EMUSTATE_QUIT := by
  cases l with
  | worker now =>
    have := (worker_statics now s t h (by rw [hq]; rfl)).1
    rw [← hq, ← this]
  | control =>
    rcases s with ⟨⟨st, rr, eng, game, afs, mfs, snd, aud, surf⟩, mtx, ww, cw, pc, ctx, ctl, frames⟩
    simp only at hq
    subst hq
    cases ctl with
    | nil => simp [step, controlStep] at h
    | cons op k =>
      simp only [step, controlStep] at h
      cases op <;> simp only [opStep] at h <;> (try split at h) <;> (try split at h) <;>
        (try (simp at h; done)) <;> (simp only [Option.some.injEq] at h; subst h) <;>
        (try (rename_i g hg; have := setOption_statics _ _ _ _ _ hg)) <;>
        simp_all
  | host c =>
    simp only [step, hostStep] at h
    split at h <;> simp at h
    subst h
    exact hq
  | spurious tid =>
    cases tid <;> simp only [step, spuriousStep, Option.some.injEq] at h <;> subst h <;> exact hq

theorem run_quit (tr : List Label) :
    ∀ s t : Sys, s.emuState = EMUSTATE_QUIT → run tr s = some t →
      t.emuState = EMUSTATE_QUIT := by
  induction tr with
  | nil =>
    intro s t hq h
    simp only [run, Option.some.injEq] at h
    subst h
    exact hq
  | cons l tr ih =>
    intro s t hq h
    simp only [run] at h
    cases hl : step l s with
    | none => simp [hl] at h
    | some u =>
      rw [hl] at h
      exact ih u t (step_quit l s u hq hl) h

/-- C1: from any state with `emuState = EMUSTATE_QUIT`, after any finite sequence of
statements of the control thread (those of `pauseEmulator`, `resumeEmulator` and
`Emulator_cleanUp` included), of the worker, of entry-point calls and of spurious
wake-ups, `emuState` is still `EMUSTATE_QUIT`; the worker changes no static; at its
test of line 465 it unlocks the mutex and leaves the loop, and once it has left it
executes nothing more. -/
theorem quit_absorbing (s : Sys) (hq : s.emuState = EMUSTATE_QUIT) :
    (∀ (tr : List Label) (t : Sys), run tr s = some t → t.emuState = EMUSTATE_QUIT) ∧
    (∀ (now : Nat) (t : Sys), workerStep now s = some t → t.toStatics = s.toStatics) ∧
    (s.wpc = WorkerPc.testQuit →
      ∀ now, workerStep now s = some { s with mutex := none, wpc := WorkerPc.exited }) ∧
    (s.wpc = WorkerPc.exited → ∀ now, workerStep now s = none) := by
  refine ⟨fun tr t h => run_quit tr s t hq h,
    fun now t h => (worker_statics now s t h (by rw [hq]; rfl)).1, ?_, ?_⟩
  · intro hpc now
    simp [workerStep, hpc, hq]
  · intro hpc now
    simp [workerStep, hpc]

/-- Induction along an execution that stays inside a call until it returns. -/
theorem callRun_induct (inCall : Sys → Bool) (P Q : Sys → Prop)
    (hstep : ∀ (l : Label) (s v : Sys), P s → inCall s = true → step l s = some v →
      (inCall v = true → P v) ∧ (inCall v = false → Q v))
    (tr : List Label) :
    ∀ s t : Sys, P s → inCall s = true → callRun inCall tr s = some t → Q t := by
  induction tr with
  | nil =>
    intro s t _ hin h
    simp [callRun, hin] at h
  | cons l tr ih =>
    intro s t hP hin h
    simp only [callRun, hin, if_true] at h
    cases hl : step l s with
    | none => simp [hl] at h
    | some v =>
      rw [hl] at h
      simp only [Option.some_bind] at h
      obtain ⟨h1, h2⟩ := hstep l s v hP hin hl
      cases hv : inCall v with
      | true => exact ih v t (h1 hv) hv h
      | false =>
        cases tr with
        | nil =>
          simp only [callRun, hv, Bool.false_eq_true, if_false, Option.some.injEq] at h
          subst h
          exact h2 hv
        | cons l2 tr2 => simp [callRun, hv] at h

/-- Induction along an execution whose states all satisfy `p`. -/
theorem runWhile_induct (p : Sys → Bool) (P : Sys → Prop)
    (hstep : ∀ (l : Label) (s v : Sys), P s → p s = true → step l s = some v →
      p v = true → P v)
    (tr : List Label) :
    ∀ s u : Sys, P s → runWhile p tr s = some u → P u ∧ p u = true := by
  induction tr with
  | nil =>
    intro s u hP h
    simp only [runWhile] at h
    split at h
    · rename_i hp
      simp only [Option.some.injEq] at h; subst h; exact ⟨hP, hp⟩
    · cases h
  | cons l tr ih =>
    intro s u hP h
    simp only [runWhile] at h
    split at h
    · rename_i hp
      cases hl : step l s with
      | none => simp [hl] at h
      | some v =>
        rw [hl] at h
        simp only [Option.some_bind] at h
        have hv : p v = true := by
          cases tr <;> simp only [runWhile] at h <;> split at h <;> first | assumption | cases h
        exact ih v u (hstep l s v hP hp hl hv) h
    · cases h

/-- Inside a call no entry point can be called. -/
theorem host_blocked (c : HostCall) (s v : Sys) (op : Op) (k : List Op)
    (hc : s.ctl = op :: k) (h : step (Label.host c) s = some v) : False := by
  simp only [step, hostStep, hc] at h
  simp at h

theorem spurious_effect (tid : Tid) (s v : Sys) (h : step (Label.spurious tid) s = some v) :
    v.toStatics = s.toStatics ∧ v.ctl = s.ctl ∧ v.wpc = s.wpc ∧ v.frames = s.frames ∧
      v.mutex = s.mutex := by
  cases tid <;> simp only [step, spuriousStep, Option.some.injEq] at h <;> subst h <;> simp

/-- One transition inside a call of `pauseEmulator` made while the worker is parked. -/
theorem pause_noop_step (k : List Op) (g : Statics) (hg : parked g.emuState = true)
    (l : Label) (s v : Sys) (hs : s.toStatics = g)
    (hc : s.ctl = Op.pause_lock :: k ∨ s.ctl = Op.pause_test :: k ∨
      s.ctl = Op.pause_unlock :: k)
    (hl : step l s = some v) :
    v.toStatics = g ∧ (v.ctl = Op.pause_lock :: k ∨ v.ctl = Op.pause_test :: k ∨
      v.ctl = Op.pause_unlock :: k ∨ v.ctl = k) := by
  have hpark : parked s.emuState = true := by
    have : s.emuState = g.emuState := by rw [← hs]
    rw [this]; exact hg
  cases l with
  | worker now =>
    have hst : settled s.emuState = true := by
      cases hst : s.emuState <;> simp [hst, parked, settled] at hpark ⊢
    obtain ⟨e1, e2⟩ := worker_statics now s v hl hst
    refine ⟨by rw [e1, hs], ?_⟩
    rw [e2]
    rcases hc with hc | hc | hc <;> simp [hc]
  | control =>
    rcases s with ⟨⟨st, rr, eng, game, afs, mfs, snd, aud, surf⟩, mtx, ww, cw, pc, ctx,
      ctl, frames⟩
    simp only at hs hc hpark
    simp only [step, controlStep] at hl
    rcases hc with hc | hc | hc <;> subst hc <;> simp only [opStep] at hl <;>
      (try split at hl) <;> (try (simp at hl; done)) <;>
      (simp only [Option.some.injEq] at hl; subst hl) <;>
      cases st <;> simp_all [parked]
  | host c =>
    rcases hc with hc | hc | hc <;> exact (host_blocked c s v _ k hc hl).elim
  | spurious tid =>
    obtain ⟨e1, e2, _⟩ := spurious_effect tid s v hl
    refine ⟨by rw [e1, hs], ?_⟩
    rw [e2]
    rcases hc with hc | hc | hc <;> simp [hc]

/-- One transition inside a call of `resumeEmulator` whose guard or state test fails. -/
theorem resume_noop_step (k : List Op) (g : Statics) (hg : settled g.emuState = true)
    (hno : g.emuState ≠ EMUSTATE_PAUSED ∨ g.currentGame = none ∨ g.renderSurface = false)
    (l : Label) (s v : Sys) (hs : s.toStatics = g)
    (hc : s.ctl = Op.resume_guard :: k ∨
      (s.ctl = Op.resume_lock :: k ∨ s.ctl = Op.resume_test :: k ∨
        s.ctl = Op.resume_unlock :: k) ∧ g.emuState ≠ EMUSTATE_PAUSED)
    (hl : step l s = some v) :
    v.toStatics = g ∧ (v.ctl = Op.resume_guard :: k ∨
      (v.ctl = Op.resume_lock :: k ∨ v.ctl = Op.resume_test :: k ∨
        v.ctl = Op.resume_unlock :: k) ∧ g.emuState ≠ EMUSTATE_PAUSED ∨ v.ctl = k) := by
  have hst : settled s.emuState = true := by
    have : s.emuState = g.emuState := by rw [← hs]
    rw [this]; exact hg
  cases l with
  | worker now =>
    obtain ⟨e1, e2⟩ := worker_statics now s v hl hst
    refine ⟨by rw [e1, hs], ?_⟩
    rw [e2]
    rcases hc with hc | ⟨hc, hne⟩
    · exact Or.inl hc
    · exact Or.inr (Or.inl ⟨hc, hne⟩)
  | control =>
    rcases s with ⟨⟨st, rr, eng, game, afs, mfs, snd, aud, surf⟩, mtx, ww, cw, pc, ctx,
      ctl, frames⟩
    simp only at hs hc hst
    subst hs
    simp only at hno hg
    simp only [step, controlStep] at hl
    rcases hc with hc | ⟨hc | hc | hc, hne⟩ <;> subst hc <;> simp only [opStep] at hl <;>
      (try split at hl) <;> (try (simp at hl; done)) <;>
      (simp only [Option.some.injEq] at hl; subst hl) <;>
      cases st <;> simp_all [settled]
  | host c =>
    rcases hc with hc | ⟨hc | hc | hc, _⟩ <;> exact (host_blocked c s v _ k hc hl).elim
  | spurious tid =>
    obtain ⟨e1, e2, _⟩ := spurious_effect tid s v hl
    refine ⟨by rw [e1, hs], ?_⟩
    rw [e2]
    rcases hc with hc | ⟨hc, hne⟩
    · exact Or.inl hc
    · exact Or.inr (Or.inl ⟨hc, hne⟩)

theorem ne_cons_self (op : Op) (k : List Op) : k ≠ op :: k := by
  intro h
  have := congrArg List.length h
  simp at this

theorem inPause_ctl (k : List Op) (s : Sys) :
    inPause k s = true ↔ (s.ctl = Op.pause_lock :: k ∨ s.ctl = Op.pause_test :: k ∨
      s.ctl = Op.pause_while :: k ∨ s.ctl = Op.pause_wait :: k ∨ s.ctl = Op.pause_unlock :: k) := by
  simp [inPause, or_assoc]

theorem inResume_ctl (k : List Op) (s : Sys) :
    inResume k s = true ↔ (s.ctl = Op.resume_guard :: k ∨ s.ctl = Op.resume_lock :: k ∨
      s.ctl = Op.resume_test :: k ∨ s.ctl = Op.resume_while :: k ∨
      s.ctl = Op.resume_wait :: k ∨ s.ctl = Op.resume_unlock :: k) := by
  simp [inResume, or_assoc]

theorem not_inPause_return (k : List Op) (s : Sys) (h : s.ctl = k) : inPause k s = false := by
  cases hp : inPause k s with
  | false => rfl
  | true =>
    rw [inPause_ctl, h] at hp
    rcases hp with hp | hp | hp | hp | hp <;> exact (ne_cons_self _ k hp).elim

theorem not_inResume_return (k : List Op) (s : Sys) (h : s.ctl = k) :
    inResume k s = false := by
  cases hp : inResume k s with
  | false => rfl
  | true =>
    rw [inResume_ctl, h] at hp
    rcases hp with hp | hp | hp | hp | hp | hp <;> exact (ne_cons_self _ k hp).elim

/-- C4: requests whose guard is not met are no-ops.  (a) If `emuState` is not
`EMUSTATE_RUNNING`, `pauseEmulator` consists of three statements of the control
thread (lock, test, unlock), after which every field of the state is what it was:
nothing is written, signalled or waited for; two calls in a row from
`EMUSTATE_PAUSED` do so twice; and whatever the worker does meanwhile while it is
parked, the call never reaches its `while` loop and returns with the statics
unchanged.  (b) If `emuState` is not `EMUSTATE_PAUSED`, or `currentGame` or
`renderSurface` is `NULL`, `resumeEmulator` consists of one or four statements of the
control thread, after which every field of the state is what it was; and whatever
the worker does meanwhile in a settled state, the call never reaches its `while`
loop and returns with the statics, `emuState` included, unchanged. -/
theorem guard_not_met_noop (s : Sys) (k : List Op) :
    (s.ctl = Op.pause_lock :: k → s.emuState ≠ EMUSTATE_RUNNING → s.mutex = none →
      run [Label.control, Label.control, Label.control] s = some { s with ctl := k }) ∧
    (s.ctl = Op.pause_lock :: Op.pause_lock :: k → s.emuState = EMUSTATE_PAUSED →
      s.mutex = none →
      run [Label.control, Label.control, Label.control, Label.control, Label.control,
        Label.control] s = some { s with ctl := k }) ∧
    (s.ctl = Op.pause_lock :: k → parked s.emuState = true → ∀ tr : List Label,
      (∀ u, runWhile (inPause k) tr s = some u →
        u.toStatics = s.toStatics ∧ u.ctl ≠ Op.pause_while :: k ∧ u.ctl ≠ Op.pause_wait :: k) ∧
      (∀ t, callRun (inPause k) tr s = some t → t.toStatics = s.toStatics ∧ t.ctl = k)) ∧
    (s.ctl = Op.resume_guard :: k →
      s.emuState ≠ EMUSTATE_PAUSED ∨ s.currentGame = none ∨ s.renderSurface = false →
      s.mutex = none →
      run [Label.control] s = some { s with ctl := k } ∨
        run [Label.control, Label.control, Label.control, Label.control] s =
          some { s with ctl := k }) ∧
    (s.ctl = Op.resume_guard :: k → settled s.emuState = true →
      s.emuState ≠ EMUSTATE_PAUSED ∨ s.currentGame = none ∨ s.renderSurface = false →
      ∀ tr : List Label,
      (∀ u, runWhile (inResume k) tr s = some u →
        u.toStatics = s.toStatics ∧ u.ctl ≠ Op.resume_while :: k ∧
          u.ctl ≠ Op.resume_wait :: k) ∧
      (∀ t, callRun (inResume k) tr s = some t → t.toStatics = s.toStatics ∧ t.ctl = k)) := by
  refine ⟨?_, ?_, ?_, ?_, ?_⟩
  · intro hc hne hm
    rcases s with ⟨⟨st, rr, eng, game, afs, mfs, snd, aud, surf⟩, mtx, ww, cw, pc, ctx,
      ctl, frames⟩
    simp only at hc hne hm
    subst hc hm
    simp [run, step, controlStep, opStep, hne]
  · intro hc hp hm
    rcases s with ⟨⟨st, rr, eng, game, afs, mfs, snd, aud, surf⟩, mtx, ww, cw, pc, ctx,
      ctl, frames⟩
    simp only at hc hp hm
    subst hc hm hp
    simp [run, step, controlStep, opStep]
  · intro hc hp tr
    constructor
    · intro u hu
      have := runWhile_induct (inPause k)
        (fun x => x.toStatics = s.toStatics ∧ (x.ctl = Op.pause_lock :: k ∨
          x.ctl = Op.pause_test :: k ∨ x.ctl = Op.pause_unlock :: k))
        (fun l x v hx _ hl hv => by
          obtain ⟨e1, e2⟩ := pause_noop_step k s.toStatics hp l x v hx.1 hx.2 hl
          refine ⟨e1, ?_⟩
          rcases e2 with e | e | e | e
          · exact Or.inl e
          · exact Or.inr (Or.inl e)
          · exact Or.inr (Or.inr e)
          · rw [not_inPause_return k v e] at hv; cases hv)
        tr s u ⟨rfl, Or.inl hc⟩ hu
      obtain ⟨⟨e1, e2⟩, _⟩ := this
      refine ⟨e1, ?_, ?_⟩ <;> rcases e2 with e | e | e <;> rw [e] <;> simp
    · intro t ht
      exact callRun_induct (inPause k)
        (fun x => x.toStatics = s.toStatics ∧ (x.ctl = Op.pause_lock :: k ∨
          x.ctl = Op.pause_test :: k ∨ x.ctl = Op.pause_unlock :: k))
        (fun x => x.toStatics = s.toStatics ∧ x.ctl = k)
        (fun l x v hx _ hl => by
          obtain ⟨e1, e2⟩ := pause_noop_step k s.toStatics hp l x v hx.1 hx.2 hl
          constructor
          · intro hv
            refine ⟨e1, ?_⟩
            rcases e2 with e | e | e | e
            · exact Or.inl e
            · exact Or.inr (Or.inl e)
            · exact Or.inr (Or.inr e)
            · rw [not_inPause_return k v e] at hv; cases hv
          · intro hv
            refine ⟨e1, ?_⟩
            rw [← Bool.not_eq_true, inPause_ctl] at hv
            rcases e2 with e | e | e | e
            · exact (hv (Or.inl e)).elim
            · exact (hv (Or.inr (Or.inl e))).elim
            · exact (hv (Or.inr (Or.inr (Or.inr (Or.inr e))))).elim
            · exact e)
        tr s t ⟨rfl, Or.inl hc⟩ ((inPause_ctl k s).mpr (Or.inl hc)) ht
  · intro hc hno hm
    rcases s with ⟨⟨st, rr, eng, game, afs, mfs, snd, aud, surf⟩, mtx, ww, cw, pc, ctx,
      ctl, frames⟩
    simp only at hc hno hm
    subst hc hm
    by_cases hg : rr = false ∨ surf = false ∨ game = none
    · left
      simp [run, step, controlStep, opStep, hg]
    · right
      have hne : st ≠ EMUSTATE_PAUSED := by
        rcases hno with h | h | h
        · exact h
        · exact (hg (Or.inr (Or.inr h))).elim
        · exact (hg (Or.inr (Or.inl h))).elim
      simp [run, step, controlStep, opStep, hg, hne]
  · intro hc hs hno tr
    constructor
    · intro u hu
      have := runWhile_induct (inResume k)
        (fun x => x.toStatics = s.toStatics ∧ (x.ctl = Op.resume_guard :: k ∨
          (x.ctl = Op.resume_lock :: k ∨ x.ctl = Op.resume_test :: k ∨
            x.ctl = Op.resume_unlock :: k) ∧ s.emuState ≠ EMUSTATE_PAUSED))
        (fun l x v hx _ hl hv => by
          obtain ⟨e1, e2⟩ := resume_noop_step k s.toStatics hs hno l x v hx.1 hx.2 hl
          refine ⟨e1, ?_⟩
          rcases e2 with e | e | e
          · exact Or.inl e
          · exact Or.inr e
          · rw [not_inResume_return k v e] at hv; cases hv)
        tr s u ⟨rfl, Or.inl hc⟩ hu
      obtain ⟨⟨e1, e2⟩, _⟩ := this
      refine ⟨e1, ?_, ?_⟩ <;> rcases e2 with e | ⟨e | e | e, _⟩ <;> rw [e] <;> simp
    · intro t ht
      exact callRun_induct (inResume k)
        (fun x => x.toStatics = s.toStatics ∧ (x.ctl = Op.resume_guard :: k ∨
          (x.ctl = Op.resume_lock :: k ∨ x.ctl = Op.resume_test :: k ∨
            x.ctl = Op.resume_unlock :: k) ∧ s.emuState ≠ EMUSTATE_PAUSED))
        (fun x => x.toStatics = s.toStatics ∧ x.ctl = k)
        (fun l x v hx _ hl => by
          obtain ⟨e1, e2⟩ := resume_noop_step k s.toStatics hs hno l x v hx.1 hx.2 hl
          constructor
          · intro hv
            refine ⟨e1, ?_⟩
            rcases e2 with e | e | e
            · exact Or.inl e
            · exact Or.inr e
            · rw [not_inResume_return k v e] at hv; cases hv
          · intro hv
            refine ⟨e1, ?_⟩
            rw [← Bool.not_eq_true, inResume_ctl] at hv
            rcases e2 with e | ⟨e | e | e, _⟩ | e
            · exact (hv (Or.inl e)).elim
            · exact (hv (Or.inr (Or.inl e))).elim
            · exact (hv (Or.inr (Or.inr (Or.inl e)))).elim
            · exact (hv (Or.inr (Or.inr (Or.inr (Or.inr (Or.inr e)))))).elim
            · exact e)
        tr s t ⟨rfl, Or.inl hc⟩ ((inResume_ctl k s).mpr (Or.inl hc)) ht

theorem valid_of_step_in_call (l : Label) (s v : Sys) (op : Op) (k : List Op)
    (hc : s.ctl = op :: k) (hl : step l s = some v) : l.valid := by
  cases l with
  | host c => exact (host_blocked c s v op k hc hl).elim
  | worker now => trivial
  | control => trivial
  | spurious tid => trivial

theorem control_frames (s t : Sys) (h : controlStep s = some t) :
    t.frames = s.frames ∧ t.wpc = s.wpc := by
  rcases s with ⟨⟨st, rr, eng, game, afs, mfs, snd, aud, surf⟩, mtx, ww, cw, pc, ctx, ctl, frames⟩
  cases ctl with
  | nil => simp [controlStep] at h
  | cons op k =>
    simp only [controlStep] at h
    cases op <;> simp only [opStep] at h <;> (try split at h) <;> (try split at h) <;>
      (try (simp at h; done)) <;> (simp only [Option.some.injEq] at h; subst h) <;> simp

theorem worker_frames (now : Nat) (s t : Sys) (h : workerStep now s = some t)
    (hpc : s.wpc ≠ WorkerPc.loopBody) : t.frames = s.frames := by
  rcases s with ⟨⟨st, rr, eng, game, afs, mfs, snd, aud, surf⟩, mtx, ww, cw, pc, ctx, ctl, frames⟩
  cases pc <;> simp only [workerStep] at h <;> (try split at h) <;> (try split at h) <;>
    (try (simp at h; done)) <;> (simp only [Option.some.injEq] at h; subst h) <;> simp_all

/-- While the worker is parked, no statement of the control thread changes
`emuState` except to request a run or to quit. -/
theorem control_parked (s t : Sys) (h : controlStep s = some t)
    (hp : parked s.emuState = true) :
    t.emuState = s.emuState ∨ t.emuState = EMUSTATE_REQUEST_RUN ∨
      t.emuState = EMUSTATE_QUIT := by
  rcases s with ⟨⟨st, rr, eng, game, afs, mfs, snd, aud, surf⟩, mtx, ww, cw, pc, ctx, ctl, frames⟩
  cases ctl with
  | nil => simp [controlStep] at h
  | cons op k =>
    simp only [controlStep] at h
    cases op <;> simp only [opStep] at h <;> (try split at h) <;> (try split at h) <;>
      (try (simp at h; done)) <;> (simp only [Option.some.injEq] at h; subst h) <;>
      (try (rename_i g hg; have := setOption_statics _ _ _ _ _ hg)) <;>
      cases st <;> simp_all [parked]

/-- While the worker is parked and no run is requested, no frame is run. -/
theorem parked_step (l : Label) (s v : Sys) (hv : l.valid) (hi : Inv s)
    (hp : parked s.emuState = true) (hl : step l s = some v) (hn : noRunRequest v = true) :
    Inv v ∧ parked v.emuState = true ∧ v.frames = s.frames := by
  refine ⟨inv_step l s v hv hi hl, ?_⟩
  have hst : settled s.emuState = true := by
    cases hst : s.emuState <;> simp [hst, parked, settled] at hp ⊢
  cases l with
  | worker now =>
    obtain ⟨e1, _⟩ := worker_statics now s v hl hst
    have hpc : s.wpc ≠ WorkerPc.loopBody := by
      intro hpc
      have := hi.worker
      rw [hpc] at this
      cases hst2 : s.emuState <;> simp [hst2, parked, workerAt] at hp this
    refine ⟨?_, worker_frames now s v hl hpc⟩
    have : v.emuState = s.emuState := by rw [e1]
    rw [this]; exact hp
  | control =>
    refine ⟨?_, (control_frames s v hl).1⟩
    simp only [noRunRequest, decide_eq_true_eq] at hn
    rcases control_parked s v hl hp with e | e | e
    · rw [e]; exact hp
    · exact (hn e).elim
    · rw [e]; rfl
  | host c =>
    simp only [step, hostStep] at hl
    split at hl <;> simp at hl
    subst hl
    exact ⟨hp, rfl⟩
  | spurious tid =>
    obtain ⟨e1, _, _, e4, _⟩ := spurious_effect tid s v hl
    have : v.emuState = s.emuState := by rw [e1]
    rw [this]
    exact ⟨hp, e4⟩

/-- Induction along an execution whose states all satisfy `p` and whose labels
respect the engine contract. -/
theorem runWhile_valid_induct (p : Sys → Bool) (P : Sys → Prop)
    (hstep : ∀ (l : Label) (s v : Sys), l.valid → P s → p s = true → step l s = some v →
      p v = true → P v)
    (tr : List Label) :
    ∀ s u : Sys, (∀ l ∈ tr, l.valid) → P s → runWhile p tr s = some u → P u := by
  induction tr with
  | nil =>
    intro s u _ hP h
    simp only [runWhile] at h
    split at h
    · simp only [Option.some.injEq] at h; subst h; exact hP
    · cases h
  | cons l tr ih =>
    intro s u hval hP h
    simp only [runWhile] at h
    split at h
    · rename_i hp
      cases hl : step l s with
      | none => simp [hl] at h
      | some v =>
        rw [hl] at h
        simp only [Option.some_bind] at h
        have hv : p v = true := by
          cases tr <;> simp only [runWhile] at h <;> split at h <;> first | assumption | cases h
        exact ih v u (fun l2 h2 => hval l2 (List.mem_cons_of_mem _ h2))
          (hstep l s v (hval l (List.mem_cons_self _ _)) hP hp hl hv) h
    · cases h

/-- One transition inside a call of `pauseEmulator` entered in `EMUSTATE_RUNNING`. -/
theorem pause_phase_step (k : List Op) (l : Label) (s v : Sys) (hp : PausePhase k s)
    (hl : step l s = some v) :
    PausePhase k v ∨ (v.ctl = k ∧ v.emuState = EMUSTATE_PAUSED) := by
  cases l with
  | worker now =>
    left
    obtain ⟨e1, _, _, _, _, e6⟩ := worker_effect now s v hl
    unfold PausePhase at hp ⊢
    rw [e1]
    rcases e6 with ⟨e, _⟩ | ⟨e, e', _⟩ | ⟨e, e', _⟩
    · rw [e]; exact hp
    · rw [e] at hp; rw [e']
      rcases hp with ⟨_, h⟩ | ⟨_, h | h⟩ | ⟨_, h⟩ <;> cases h
    · rw [e] at hp; rw [e']
      rcases hp with ⟨_, h⟩ | ⟨hc, _⟩ | ⟨_, h⟩
      · cases h
      · exact Or.inr (Or.inl ⟨hc, Or.inr rfl⟩)
      · cases h
  | control =>
    rcases s with ⟨⟨st, rr, eng, game, afs, mfs, snd, aud, surf⟩, mtx, ww, cw, pc, ctx,
      ctl, frames⟩
    simp only [PausePhase] at hp ⊢
    simp only [step, controlStep] at hl
    rcases hp with ⟨hc | hc, hs⟩ | ⟨hc | hc, hs | hs⟩ | ⟨hc, hs⟩ <;> subst hc <;> subst hs <;>
      simp only [opStep] at hl <;> (try split at hl) <;> (try (simp at hl; done)) <;>
      (simp only [Option.some.injEq] at hl; subst hl) <;> simp_all
  | host c =>
    unfold PausePhase at hp
    rcases hp with ⟨hc | hc, _⟩ | ⟨hc | hc, _⟩ | ⟨hc, _⟩ <;>
      exact (host_blocked c s v _ k hc hl).elim
  | spurious tid =>
    left
    obtain ⟨e1, e2, _⟩ := spurious_effect tid s v hl
    have : v.emuState = s.emuState := by rw [e1]
    unfold PausePhase at hp ⊢
    rw [e2, this]
    exact hp

theorem pausePhase_inPause (k : List Op) (s : Sys) (hp : PausePhase k s) :
    inPause k s = true ∧ ∃ op, s.ctl = op :: k := by
  rw [inPause_ctl]
  unfold PausePhase at hp
  rcases hp with ⟨hc | hc, _⟩ | ⟨hc | hc, _⟩ | ⟨hc, _⟩
  · exact ⟨Or.inl hc, _, hc⟩
  · exact ⟨Or.inr (Or.inl hc), _, hc⟩
  · exact ⟨Or.inr (Or.inr (Or.inl hc)), _, hc⟩
  · exact ⟨Or.inr (Or.inr (Or.inr (Or.inl hc))), _, hc⟩
  · exact ⟨Or.inr (Or.inr (Or.inr (Or.inr hc))), _, hc⟩

theorem self_eq_cons_false (op : Op) (k : List Op) : (k = op :: k) = False :=
  eq_false (ne_cons_self op k)

theorem scheduleCall_succ (inCall : Sys → Bool) (now n : Nat) (s : Sys) :
    scheduleCall inCall now (n + 1) s =
      if inCall s then (controlFirst now s).bind (scheduleCall inCall now n) else some s :=
  rfl

/-- Under the scheduler `controlFirst`, a call of `pauseEmulator` made in
`EMUSTATE_RUNNING` returns within 16 transitions, in `EMUSTATE_PAUSED`. -/
theorem pause_returns (s : Sys) (k : List Op) (hi : Inv s) (hc : s.ctl = Op.pause_lock :: k)
    (hrun : s.emuState = EMUSTATE_RUNNING) (now : Nat) :
    ∃ t, scheduleCall (inPause k) now 16 s = some t ∧ t.ctl = k ∧
      t.emuState = EMUSTATE_PAUSED := by
  obtain ⟨h1, h2, h3, h4, h5, h6, h7, h8, h9, h10, h11⟩ := hi
  rcases s with ⟨⟨st, rr, eng, game, afs, mfs, snd, aud, surf⟩, mtx, ww, cw, pc, ctx, ctl, frames⟩
  simp only at hc hrun h1 h2 h3 h4 h5 h6 h7 h8 h9 h10 h11
  subst hc hrun
  have hcw : cw = false := by
    cases cw
    · rfl
    · simp [controlWaitOk] at h10
  subst hcw
  obtain ⟨hsurf, hgame, heng⟩ := h5 rfl
  cases game with
  | none => exact (hgame rfl).elim
  | some fps =>
    have hfps : fps ≠ 0 := by
      have := h6 fps rfl
      omega
    subst heng
    simp only [workerAt, Bool.or_eq_true, decide_eq_true_eq] at h3
    rcases h3 with ((hpc | hpc) | hpc) | hpc <;> subst hpc <;>
      simp only [WorkerPc.holds, ctlHolds, Op.holds, if_true, Bool.false_eq_true, if_false] at h1 <;>
      subst h1 <;>
      iterate 13
        (first
          | (rw [scheduleCall_succ]
             simp [controlFirst, step, controlStep, opStep, workerStep, inPause,
               self_eq_cons_false, hfps])
          | skip)

/-- C2: when `pauseEmulator` is called in a reachable state with
`emuState = EMUSTATE_RUNNING`, then in every interleaving of the two threads
`emuState` is `EMUSTATE_PAUSED` at the moment the call returns, and from that
moment on, as long as no `resumeEmulator` has set `EMUSTATE_REQUEST_RUN`, the worker
runs no frame (the list of `engine->runFrame` calls does not grow); and the call
does return: under the scheduler that lets the control thread move whenever it can,
within 16 transitions. -/
theorem pause_handshake (s : Sys) (k : List Op) (hr : Reachable s)
    (hc : s.ctl = Op.pause_lock :: k) (hrun : s.emuState = EMUSTATE_RUNNING) :
    (∀ (tr : List Label) (t : Sys), callRun (inPause k) tr s = some t →
      t.ctl = k ∧ t.emuState = EMUSTATE_PAUSED ∧
      ∀ (tr2 : List Label) (u : Sys), (∀ l ∈ tr2, l.valid) →
        runWhile noRunRequest tr2 t = some u → u.frames = t.frames) ∧
    (∀ now : Nat, ∃ t, scheduleCall (inPause k) now 16 s = some t ∧ t.ctl = k ∧
      t.emuState = EMUSTATE_PAUSED) := by
  have hi := reachable_inv s hr
  refine ⟨?_, fun now => pause_returns s k hi hc hrun now⟩
  intro tr t ht
  have hret : Inv t ∧ t.ctl = k ∧ t.emuState = EMUSTATE_PAUSED :=
    callRun_induct (inPause k) (fun x => Inv x ∧ PausePhase k x)
      (fun x => Inv x ∧ x.ctl = k ∧ x.emuState = EMUSTATE_PAUSED)
      (fun l x v hx _ hl => by
        obtain ⟨_, op, hop⟩ := pausePhase_inPause k x hx.2
        have hiv := inv_step l x v (valid_of_step_in_call l x v op k hop hl) hx.1 hl
        rcases pause_phase_step k l x v hx.2 hl with hph | ⟨e1, e2⟩
        · constructor
          · intro _; exact ⟨hiv, hph⟩
          · intro hv
            rw [(pausePhase_inPause k v hph).1] at hv
            cases hv
        · constructor
          · intro hv
            rw [not_inPause_return k v e1] at hv
            cases hv
          · intro _; exact ⟨hiv, e1, e2⟩)
      tr s t ⟨hi, Or.inl ⟨Or.inl hc, hrun⟩⟩ ((inPause_ctl k s).mpr (Or.inl hc)) ht
  obtain ⟨hit, e1, e2⟩ := hret
  refine ⟨e1, e2, ?_⟩
  intro tr2 u hval hu
  have := runWhile_valid_induct noRunRequest
    (fun x => Inv x ∧ parked x.emuState = true ∧ x.frames = t.frames)
    (fun l x v hv hx _ hl hn => by
      obtain ⟨a, b, c⟩ := parked_step l x v hv hx.1 hx.2.1 hl hn
      exact ⟨a, b, by rw [c]; exact hx.2.2⟩)
    tr2 t u hval ⟨hit, by rw [e2]; rfl, rfl⟩ hu
  exact this.2.2

/-- One transition inside a call of `resumeEmulator` entered in `EMUSTATE_PAUSED`
with `resumeRequested` set, a game loaded and a surface attached. -/
theorem resume_phase_step (k : List Op) (l : Label) (s v : Sys) (hp : ResumePhase k s)
    (hl : step l s = some v) :
    ResumePhase k v ∨ (v.ctl = k ∧ v.emuState = EMUSTATE_RUNNING) := by
  cases l with
  | worker now =>
    left
    obtain ⟨e1, e2, _, e4, e5, e6⟩ := worker_effect now s v hl
    unfold ResumePhase at hp ⊢
    rw [e1, e2, e4, e5]
    rcases e6 with ⟨e, _⟩ | ⟨e, e', _⟩ | ⟨e, e', _⟩
    · rw [e]; exact hp
    · rw [e] at hp; rw [e']
      rcases hp with ⟨_, h, _⟩ | ⟨hc, _⟩ | ⟨_, h⟩
      · cases h
      · exact Or.inr (Or.inl ⟨hc, Or.inr rfl⟩)
      · cases h
    · rw [e] at hp; rw [e']
      rcases hp with ⟨_, h, _⟩ | ⟨_, h | h⟩ | ⟨_, h⟩ <;> cases h
  | control =>
    rcases s with ⟨⟨st, rr, eng, game, afs, mfs, snd, aud, surf⟩, mtx, ww, cw, pc, ctx,
      ctl, frames⟩
    simp only [ResumePhase] at hp ⊢
    simp only [step, controlStep] at hl
    rcases hp with ⟨hc | hc | hc, hs, h1, h2, h3⟩ | ⟨hc | hc, hs | hs⟩ | ⟨hc, hs⟩ <;>
      subst hc <;> subst hs <;>
      simp only [opStep] at hl <;> (try split at hl) <;> (try (simp at hl; done)) <;>
      (simp only [Option.some.injEq] at hl; subst hl) <;> simp_all
  | host c =>
    unfold ResumePhase at hp
    rcases hp with ⟨hc | hc | hc, _⟩ | ⟨hc | hc, _⟩ | ⟨hc, _⟩ <;>
      exact (host_blocked c s v _ k hc hl).elim
  | spurious tid =>
    left
    obtain ⟨e1, e2, _⟩ := spurious_effect tid s v hl
    have h1 : v.emuState = s.emuState := by rw [e1]
    have h2 : v.resumeRequested = s.resumeRequested := by rw [e1]
    have h3 : v.renderSurface = s.renderSurface := by rw [e1]
    have h4 : v.currentGame = s.currentGame := by rw [e1]
    unfold ResumePhase at hp ⊢
    rw [e2, h1, h2, h3, h4]
    exact hp

theorem resumePhase_inResume (k : List Op) (s : Sys) (hp : ResumePhase k s) :
    inResume k s = true ∧ ∃ op, s.ctl = op :: k := by
  rw [inResume_ctl]
  unfold ResumePhase at hp
  rcases hp with ⟨hc | hc | hc, _⟩ | ⟨hc | hc, _⟩ | ⟨hc, _⟩
  · exact ⟨Or.inl hc, _, hc⟩
  · exact ⟨Or.inr (Or.inl hc), _, hc⟩
  · exact ⟨Or.inr (Or.inr (Or.inl hc)), _, hc⟩
  · exact ⟨Or.inr (Or.inr (Or.inr (Or.inl hc))), _, hc⟩
  · exact ⟨Or.inr (Or.inr (Or.inr (Or.inr (Or.inl hc)))), _, hc⟩
  · exact ⟨Or.inr (Or.inr (Or.inr (Or.inr (Or.inr hc)))), _, hc⟩

/-- Under the scheduler `controlFirst`, a call of `resumeEmulator` whose guard and
state test pass, made once the worker has executed lines 458-459, returns within
16 transitions, in `EMUSTATE_RUNNING`. -/
theorem resume_returns (s : Sys) (k : List Op) (hi : Inv s)
    (hc : s.ctl = Op.resume_guard :: k) (hp : s.emuState = EMUSTATE_PAUSED)
    (hgame : s.currentGame ≠ none) (hsurf : s.renderSurface = true)
    (hrr : s.resumeRequested = true) (hstart : s.wpc ≠ WorkerPc.start) (now : Nat) :
    ∃ t, scheduleCall (inResume k) now 16 s = some t ∧ t.ctl = k ∧
      t.emuState = EMUSTATE_RUNNING := by
  obtain ⟨h1, h2, h3, h4, h5, h6, h7, h8, h9, h10, h11⟩ := hi
  rcases s with ⟨⟨st, rr, eng, game, afs, mfs, snd, aud, surf⟩, mtx, ww, cw, pc, ctx, ctl, frames⟩
  simp only at hc hp hgame hsurf hrr hstart h1 h2 h3 h4 h5 h6 h7 h8 h9 h10 h11
  subst hc hp hsurf hrr
  have hcw : cw = false := by
    cases cw
    · rfl
    · simp [controlWaitOk] at h10
  subst hcw
  cases game with
  | none => exact (hgame rfl).elim
  | some fps =>
    simp only [workerAt, Bool.or_eq_true, decide_eq_true_eq] at h3
    rcases h3 with (((hpc | hpc) | hpc) | hpc) | hpc <;> subst hpc <;>
      (try (exact (hstart rfl).elim)) <;>
      simp only [WorkerPc.holds, ctlHolds, Op.holds, if_true, Bool.false_eq_true, if_false] at h1 <;>
      subst h1 <;> cases ww <;> (try (simp at h11; done)) <;>
      iterate 16
        (first
          | (rw [scheduleCall_succ]
             simp [controlFirst, step, controlStep, opStep, workerStep, inResume,
               self_eq_cons_false])
          | skip)

/-! ## Examples and the remaining statements -/

theorem reachable_run (tr : List Label) :
    ∀ s t : Sys, Reachable s → (∀ l ∈ tr, l.valid) → run tr s = some t → Reachable t := by
  induction tr with
  | nil =>
    intro s t hs _ h
    simp only [run, Option.some.injEq] at h
    subst h
    exact hs
  | cons l tr ih =>
    intro s t hs hv h
    simp only [run] at h
    cases hl : step l s with
    | none => simp [hl] at h
    | some u =>
      rw [hl] at h
      exact ih u t (Reachable.next l hs (hv l (List.mem_cons_self _ _)) hl)
        (fun l2 h2 => hv l2 (List.mem_cons_of_mem _ h2)) h

theorem run_append (tr1 tr2 : List Label) :
    ∀ s : Sys, run (tr1 ++ tr2) s = (run tr1 s).bind (run tr2) := by
  induction tr1 with
  | nil => intro s; rfl
  | cons l tr ih =>
    intro s
    simp only [List.cons_append, run]
    cases step l s with
    | none => rfl
    | some u => exact ih u

theorem run_bootTrace : run bootTrace ( Emulator_initialize true) = some loadedPaused := by
  decide

theorem run_resumeTrace : run resumeTrace loadedPaused = some resumeReady := by
  decide

theorem run_pauseEntryTrace : run pauseEntryTrace resumeReady = some runningPause := by
  decide

theorem reachable_loadedPaused : Reachable loadedPaused :=
  reachable_run bootTrace _ _ (Reachable.init true) (by simp [bootTrace, Label.valid])
    run_bootTrace

theorem reachable_resumeReady : Reachable resumeReady :=
  reachable_run resumeTrace _ _ reachable_loadedPaused (by simp [resumeTrace, Label.valid])
    run_resumeTrace

theorem reachable_runningPause : Reachable runningPause :=
  reachable_run pauseEntryTrace _ _ reachable_resumeReady
    (by simp [pauseEntryTrace, Label.valid]) run_pauseEntryTrace

theorem quit_absorbing_witness :
    quitState.emuState = EMUSTATE_QUIT ∧
      workerStep 0 quitState = some { quitState with mutex := none, wpc := WorkerPc.exited } ∧
      (run [Label.host HostCall.resume, Label.control, Label.control, Label.worker 0,
        Label.host HostCall.pause, Label.control, Label.control, Label.control, Label.control,
        Label.host HostCall.cleanUp, Label.control, Label.control, Label.control, Label.control,
        Label.control] quitState).map (fun x => x.emuState) = some EMUSTATE_QUIT := by
  refine ⟨rfl, (quit_absorbing quitState rfl).2.2.1 rfl 0, ?_⟩
  have hs : (run [Label.host HostCall.resume, Label.control, Label.control, Label.worker 0,
      Label.host HostCall.pause, Label.control, Label.control, Label.control, Label.control,
      Label.host HostCall.cleanUp, Label.control, Label.control, Label.control, Label.control,
      Label.control] quitState).isSome = true := by decide
  obtain ⟨t, ht⟩ := Option.isSome_iff_exists.mp hs
  rw [ht]
  simp [(quit_absorbing quitState rfl).1 _ t ht]

theorem pause_handshake_witness :
    runningPause.ctl = [Op.pause_lock] ∧ runningPause.emuState = EMUSTATE_RUNNING ∧
      (scheduleCall (inPause []) 16 16 runningPause).map (fun x => x.emuState) =
        some EMUSTATE_PAUSED := by
  refine ⟨rfl, rfl, ?_⟩
  obtain ⟨t, h1, _, h3⟩ := (pause_handshake runningPause [] reachable_runningPause rfl rfl).2 16
  rw [h1]
  simp [h3]

theorem guard_not_met_noop_witness :
    (run [Label.control, Label.control, Label.control]
          { loadedPaused with ctl := [Op.pause_lock] } =
        some { loadedPaused with ctl := [] }) ∧
      (run [Label.control] { loadedPaused with currentGame := none } =
          some { loadedPaused with currentGame := none, ctl := [] } ∨
        run [Label.control, Label.control, Label.control, Label.control]
            { loadedPaused with currentGame := none } =
          some { loadedPaused with currentGame := none, ctl := [] }) :=
  ⟨(guard_not_met_noop { loadedPaused with ctl := [Op.pause_lock] } []).1 rfl (by decide) rfl,
    (guard_not_met_noop { loadedPaused with currentGame := none } []).2.2.2.1 rfl
      (Or.inr (Or.inl rfl)) rfl⟩

theorem maxFrameSkips_clamped_witness :
    Emulator_setOption "maxFrameSkips" "150" 150 loadedPaused.toStatics =
        some { loadedPaused.toStatics with maxFrameSkips := 99 } ∧
      (2 ≤ runningPause.maxFrameSkips ∧ runningPause.maxFrameSkips ≤ 99) ∧
      (Emulator_setOption "soundEnabled" "true" 0 loadedPaused.toStatics).map
        Statics.maxFrameSkips = some loadedPaused.maxFrameSkips := by
  refine ⟨maxFrameSkips_clamped.1 "150" 150 loadedPaused.toStatics,
    maxFrameSkips_clamped.2.1 runningPause reachable_runningPause, ?_⟩
  have hs : (Emulator_setOption "soundEnabled" "true" 0 loadedPaused.toStatics).isSome = true := by
    decide
  obtain ⟨g, hg⟩ := Option.isSome_iff_exists.mp hs
  rw [hg]
  simp [maxFrameSkips_clamped.2.2 "soundEnabled" "true" 0 _ g (by decide) hg]

/-! ### `resumeEmulator`: the `resumeRequested` gate -/

/-- C3, counterexample: at line 406 of `Emulator_loadROM`, right after `Emulator_initialize`,
a surface attachment and a successful load, `resumeEmulator` is called with
`emuState = EMUSTATE_PAUSED`, a game loaded and a surface attached; it returns after
its first statement and leaves the state, `emuState = EMUSTATE_PAUSED` included,
unchanged, because `resumeRequested` is false. -/
theorem resume_blocked_by_resumeRequested :
    run bootTrace ( Emulator_initialize true) = some loadedPaused ∧
      loadedPaused.ctl = [Op.resume_guard] ∧
      loadedPaused.emuState = EMUSTATE_PAUSED ∧
      loadedPaused.currentGame = some 60 ∧
      loadedPaused.renderSurface = true ∧
      loadedPaused.resumeRequested = false ∧
      callRun (inResume []) [Label.control] loadedPaused =
        some { loadedPaused with ctl := [] } := by
  decide

/-- One transition inside a call of `resumeEmulator` made with `resumeRequested`
false in a settled state: the call is still at its guard, or has returned. -/
theorem resume_gate_step (k : List Op) (g : Statics) (hg : settled g.emuState = true)
    (hrr : g.resumeRequested = false) (l : Label) (s v : Sys) (hs : s.toStatics = g)
    (hc : s.ctl = Op.resume_guard :: k) (hl : step l s = some v) :
    v.toStatics = g ∧ (v.ctl = Op.resume_guard :: k ∨ v.ctl = k) := by
  have hst : settled s.emuState = true := by
    have : s.emuState = g.emuState := by rw [← hs]
    rw [this]; exact hg
  cases l with
  | worker now =>
    obtain ⟨e1, e2⟩ := worker_statics now s v hl hst
    exact ⟨by rw [e1, hs], Or.inl (by rw [e2]; exact hc)⟩
  | control =>
    rcases s with ⟨⟨st, rr, eng, game, afs, mfs, snd, aud, surf⟩, mtx, ww, cw, pc, ctx,
      ctl, frames⟩
    simp only at hs hc
    subst hs hc
    simp only at hrr
    subst hrr
    simp only [step, controlStep, opStep, true_or, if_true, Option.some.injEq] at hl
    subst hl
    exact ⟨rfl, Or.inr rfl⟩
  | host c => exact (host_blocked c s v _ k hc hl).elim
  | spurious tid =>
    obtain ⟨e1, e2, _⟩ := spurious_effect tid s v hl
    exact ⟨by rw [e1, hs], Or.inl (by rw [e2]; exact hc)⟩

/-- C3, amended: take any reachable state in which `resumeEmulator` is called with
`emuState = EMUSTATE_PAUSED`, a game loaded and a surface attached.  If
`resumeRequested` is true: whenever the control thread reaches the test of line 155
`emuState` is still `EMUSTATE_PAUSED` and the control thread sets
`EMUSTATE_REQUEST_RUN` and signals the worker; in every interleaving `emuState` is
`EMUSTATE_RUNNING` at the moment the call returns; and, provided the worker has
executed lines 458-459 of `Emulator_run` when the call is made, the call does
return: under the scheduler that lets the control thread move whenever it can,
within 16 transitions.  If `resumeRequested` is false: the first statement of the
control thread returns from the call and changes nothing else, and in every
interleaving the call never gets past its guard and returns with every static,
`emuState = EMUSTATE_PAUSED` included, unchanged. -/
theorem resume_succeeds (s : Sys) (k : List Op) (hr : Reachable s)
    (hc : s.ctl = Op.resume_guard :: k) (hp : s.emuState = EMUSTATE_PAUSED)
    (hgame : s.currentGame ≠ none) (hsurf : s.renderSurface = true) :
    (s.resumeRequested = true →
      (∀ (tr : List Label) (u : Sys), runWhile (inResume k) tr s = some u →
        u.ctl = Op.resume_test :: k →
        u.emuState = EMUSTATE_PAUSED ∧
          step Label.control u = some { u with
            emuState := EMUSTATE_REQUEST_RUN, workerWaiting := false,
            ctl := Op.resume_while :: k }) ∧
      (∀ (tr : List Label) (t : Sys), callRun (inResume k) tr s = some t →
        t.ctl = k ∧ t.emuState = EMUSTATE_RUNNING) ∧
      (s.wpc ≠ WorkerPc.start →
        ∀ now : Nat, ∃ t, scheduleCall (inResume k) now 16 s = some t ∧ t.ctl = k ∧
          t.emuState = EMUSTATE_RUNNING)) ∧
    (s.resumeRequested = false →
      step Label.control s = some { s with ctl := k } ∧
      (∀ (tr : List Label) (u : Sys), runWhile (inResume k) tr s = some u →
        u.toStatics = s.toStatics ∧ u.ctl = Op.resume_guard :: k) ∧
      (∀ (tr : List Label) (t : Sys), callRun (inResume k) tr s = some t →
        t.toStatics = s.toStatics ∧ t.emuState = EMUSTATE_PAUSED ∧ t.ctl = k)) := by
  have hi := reachable_inv s hr
  constructor
  · intro hrr
    have h0 : ResumePhase k s := Or.inl ⟨Or.inl hc, hp, hrr, hsurf, hgame⟩
    refine ⟨?_, ?_, fun hstart now => resume_returns s k hi hc hp hgame hsurf hrr hstart now⟩
    · intro tr u hu hcu
      have := runWhile_induct (inResume k) (ResumePhase k)
        (fun l x v hx _ hl hv => by
          rcases resume_phase_step k l x v hx hl with h | ⟨e, _⟩
          · exact h
          · rw [not_inResume_return k v e] at hv; cases hv)
        tr s u h0 hu
      have hph := this.1
      unfold ResumePhase at hph
      have hpu : u.emuState = EMUSTATE_PAUSED := by
        rcases hph with ⟨_, h, _⟩ | ⟨h | h, _⟩ | ⟨h, _⟩
        · exact h
        · rw [hcu] at h; cases h
        · rw [hcu] at h; cases h
        · rw [hcu] at h; cases h
      refine ⟨hpu, ?_⟩
      simp [step, controlStep, hcu, opStep, hpu]
    · intro tr t ht
      exact callRun_induct (inResume k) (ResumePhase k)
        (fun x => x.ctl = k ∧ x.emuState = EMUSTATE_RUNNING)
        (fun l x v hx _ hl => by
          rcases resume_phase_step k l x v hx hl with h | ⟨e1, e2⟩
          · constructor
            · intro _; exact h
            · intro hv
              rw [(resumePhase_inResume k v h).1] at hv
              cases hv
          · constructor
            · intro hv
              rw [not_inResume_return k v e1] at hv
              cases hv
            · intro _; exact ⟨e1, e2⟩)
        tr s t h0 ((inResume_ctl k s).mpr (Or.inl hc)) ht
  · intro hrr
    have hg : settled s.toStatics.emuState = true := by
      show settled s.emuState = true
      rw [hp]; rfl
    refine ⟨?_, ?_, ?_⟩
    · simp [step, controlStep, hc, opStep, hrr]
    · intro tr u hu
      have := runWhile_induct (inResume k)
        (fun x => x.toStatics = s.toStatics ∧ x.ctl = Op.resume_guard :: k)
        (fun l x v hx _ hl hv => by
          obtain ⟨e1, e2⟩ := resume_gate_step k s.toStatics hg hrr l x v hx.1 hx.2 hl
          refine ⟨e1, ?_⟩
          rcases e2 with e | e
          · exact e
          · rw [not_inResume_return k v e] at hv; cases hv)
        tr s u ⟨rfl, hc⟩ hu
      exact this.1
    · intro tr t ht
      have := callRun_induct (inResume k)
        (fun x => x.toStatics = s.toStatics ∧ x.ctl = Op.resume_guard :: k)
        (fun x => x.toStatics = s.toStatics ∧ x.ctl = k)
        (fun l x v hx _ hl => by
          obtain ⟨e1, e2⟩ := resume_gate_step k s.toStatics hg hrr l x v hx.1 hx.2 hl
          constructor
          · intro hv
            refine ⟨e1, ?_⟩
            rcases e2 with e | e
            · exact e
            · rw [not_inResume_return k v e] at hv; cases hv
          · intro hv
            refine ⟨e1, ?_⟩
            rcases e2 with e | e
            · rw [(inResume_ctl k v).mpr (Or.inl e)] at hv; cases hv
            · exact e)
        tr s t ⟨rfl, hc⟩ ((inResume_ctl k s).mpr (Or.inl hc)) ht
      refine ⟨this.1, ?_, this.2⟩
      have : t.emuState = s.emuState := by rw [this.1]
      rw [this, hp]

theorem resume_succeeds_witness :
    (resumeReady.ctl = [Op.resume_guard] ∧ resumeReady.emuState = EMUSTATE_PAUSED ∧
      resumeReady.currentGame ≠ none ∧ resumeReady.renderSurface = true ∧
      resumeReady.resumeRequested = true ∧ resumeReady.wpc ≠ WorkerPc.start ∧
      (scheduleCall (inResume []) 16 16 resumeReady).map (fun x => x.emuState) =
        some EMUSTATE_RUNNING) ∧
    (loadedPaused.resumeRequested = false ∧
      step Label.control loadedPaused = some { loadedPaused with ctl := [] }) := by
  refine ⟨⟨rfl, rfl, by decide, rfl, rfl, by decide, ?_⟩, rfl, ?_⟩
  · obtain ⟨t, h1, _, h3⟩ :=
      ((resume_succeeds resumeReady [] reachable_resumeReady rfl rfl (by decide) rfl).1
        rfl).2.2 (by decide) 16
    rw [h1]
    simp [h3]
  · exact ((resume_succeeds loadedPaused [] reachable_loadedPaused rfl rfl (by decide) rfl).2
      rfl).1

/-- A call of `resumeEmulator` made with every precondition met but before the
worker has executed lines 458-459 (the execution `bootTrace ++ earlyResumeTrace`):
after four statements the control thread is inside `pthread_cond_wait` with
`emuState = EMUSTATE_REQUEST_RUN`, and neither the control thread nor the worker,
whose initialisation of the condition variable is undefined under a waiter, has a
transition; the scheduler does not bring the call to its return. -/
theorem resume_blocks_before_worker_start :
    run (bootTrace ++ earlyResumeTrace) ( Emulator_initialize true) = some resumeEarly ∧
      (run [Label.control, Label.control, Label.control, Label.control] resumeEarly).map
          (fun x => (x.ctl, x.emuState, x.wpc, x.controlWaiting)) =
        some ([Op.resume_wait], EMUSTATE_REQUEST_RUN, WorkerPc.start, true) ∧
      (run [Label.control, Label.control, Label.control, Label.control] resumeEarly).bind
          controlStep = none ∧
      (run [Label.control, Label.control, Label.control, Label.control] resumeEarly).bind
          (workerStep 0) = none ∧
      scheduleCall (inResume []) 0 16 resumeEarly = none := by
  decide

/-! ### Running implies a loaded game and an attached surface -/

theorem control_running (s t : Sys) (h : controlStep s = some t)
    (hc : ctlOk s.emuState s.ctl = true) (hs : s.emuState = EMUSTATE_RUNNING) :
    t.currentGame = s.currentGame ∧ t.renderSurface = s.renderSurface := by
  rcases s with ⟨⟨st, rr, eng, game, afs, mfs, snd, aud, surf⟩, mtx, ww, cw, pc, ctx, ctl, frames⟩
  simp only at hs
  subst hs
  cases ctl with
  | nil => simp [controlStep] at h
  | cons op k =>
    simp only [controlStep] at h
    simp only [ctlOk, Bool.and_eq_true] at hc
    obtain ⟨hc1, _⟩ := hc
    cases op <;> simp only [opStep] at h <;> (try split at h) <;> (try split at h) <;>
      (try (simp at h; done)) <;> (simp only [Option.some.injEq] at h; subst h) <;>
      (try (rename_i g hg; have := setOption_statics _ _ _ _ _ hg)) <;>
      simp_all [headStates, settled, parked]

/-- C10, counterexample: the execution `bootTrace ++ resumeTrace ++ pauseEntryTrace`
from `Emulator_initialize` ends in a state with `emuState = EMUSTATE_RUNNING` and
`resumeRequested = false`: its last transition is line 420 of `Emulator_pause`,
which records the host pause while the worker is still running, before
`pauseEmulator` is called. -/
theorem host_pause_recorded_while_running :
    run (bootTrace ++ resumeTrace ++ pauseEntryTrace) ( Emulator_initialize true) =
        some runningPause ∧
      runningPause.emuState = EMUSTATE_RUNNING ∧
      runningPause.resumeRequested = false ∧
      step Label.control { runningPause with
          resumeRequested := true, ctl := [Op.set_resumeRequested false, Op.pause_lock] } =
        some runningPause := by
  decide

/-- C10, amended: in every state reachable after `Emulator_initialize`,
`emuState = EMUSTATE_RUNNING` implies that a game is loaded and a surface attached;
it implies `resumeRequested = true` whenever the control thread is between two
entry-point calls, and more generally whenever the control thread is not at one of
the first two statements of `pauseEmulator`; the worker enters `runEmulator` only
with a game loaded, whose `fps` is positive; and no transition made while
`emuState = EMUSTATE_RUNNING` changes `currentGame` or `renderSurface`. -/
theorem running_resources (s : Sys) (hr : Reachable s) :
    (s.emuState = EMUSTATE_RUNNING → s.currentGame ≠ none ∧ s.renderSurface = true) ∧
    (s.emuState = EMUSTATE_RUNNING → s.ctl = [] → s.resumeRequested = true) ∧
    (s.emuState = EMUSTATE_RUNNING → s.resumeRequested = true ∨ pausing s.ctl = true) ∧
    (s.wpc = WorkerPc.enterRun → ∃ fps, s.currentGame = some fps ∧ 0 < fps) ∧
    (s.emuState = EMUSTATE_RUNNING → ∀ (l : Label) (t : Sys), step l s = some t →
      t.currentGame = s.currentGame ∧ t.renderSurface = s.renderSurface) := by
  have hi := reachable_inv s hr
  refine ⟨?_, ?_, ?_, ?_, ?_⟩
  · intro hs
    have := hi.resources (by rw [hs]; rfl)
    exact ⟨this.2.1, this.1⟩
  · intro hs hc
    rcases hi.requested (Or.inl hs) with h | h
    · exact h
    · rw [hc] at h; simp [pausing] at h
  · intro hs
    exact hi.requested (Or.inl hs)
  · intro hpc
    have hw := hi.worker
    rw [hpc] at hw
    have hnp : parked s.emuState = false := by
      cases hst : s.emuState <;> simp [hst, workerAt, parked] at hw ⊢
    have hg := (hi.resources hnp).2.1
    cases hgame : s.currentGame with
    | none => exact (hg hgame).elim
    | some fps => exact ⟨fps, rfl, hi.fpsPos fps hgame⟩
  · intro hs l t hl
    cases l with
    | worker now =>
      have := (worker_statics now s t hl (by rw [hs]; rfl)).1
      constructor <;> rw [this]
    | control => exact control_running s t hl hi.control hs
    | host c =>
      simp only [step, hostStep] at hl
      split at hl <;> simp at hl
      subst hl
      exact ⟨rfl, rfl⟩
    | spurious tid =>
      have := (spurious_effect tid s t hl).1
      constructor <;> rw [this]

theorem running_resources_witness :
    (runningPause.currentGame ≠ none ∧ runningPause.renderSurface = true) ∧
      (runningPause.resumeRequested = true ∨ pausing runningPause.ctl = true) :=
  ⟨(running_resources runningPause reachable_runningPause).1 rfl,
    (running_resources runningPause reachable_runningPause).2.2.1 rfl⟩

/-! ### The wrap of the product of line 193 -/

/-- C9, the code at the failing input: for a 60 fps game started at tick 0, the
real frame count of line 193 is 4294967 at tick 71582788 and 0 one millisecond
later, where `floor((now - initialTicks) * fps / 1000)` is still 4294967: the
product `71582789 * 60` exceeds `2^32 - 1` and wraps. -/
theorem realFrameCount_wraps :
    realFrameCount (resetContext 60 0) 71582788 = 4294967 ∧
      realFrameCount (resetContext 60 0) 71582789 = 0 ∧
      ((71582789 : Int) - 0) * 60 / 1000 = 4294967 ∧
      (71582789 - 0) * 60 = UINT_MOD + 44 := by
  decide

/-- While the product of line 193 does not wrap, the real frame count is the
integer `floor((now - initialTicks) * fps / 1000)` and does not decrease with `now`. -/
theorem realFrameCount_before_wrap (fps : Int) (t0 now : Nat) (hfps : 0 < fps)
    (hint : fps < 2147483648) (h0 : t0 ≤ now) (hnow : now < UINT_MOD)
    (hno : (now - t0) * fps.toNat < UINT_MOD) :
    (realFrameCount (resetContext fps t0) now : Int) = ((now : Int) - (t0 : Int)) * fps / 1000 ∧
      ∀ earlier, t0 ≤ earlier → earlier ≤ now →
        realFrameCount (resetContext fps t0) earlier ≤ realFrameCount (resetContext fps t0) now := by
  have ht0 : t0 % UINT_MOD = t0 := Nat.mod_eq_of_lt (by omega)
  have hi : (resetContext fps t0).initialTicks = t0 := ht0
  constructor
  · rw [realFrameCount_exact (resetContext fps t0) now hfps hint (by rw [hi]; exact h0) hnow
      (by rw [hi]; exact hno), hi]
    have hf : ((fps.toNat : Nat) : Int) = fps := Int.toNat_of_nonneg (le_of_lt hfps)
    show (((now - t0) * fps.toNat / 1000 : Nat) : Int) = _
    rw [Int.ofNat_ediv, Nat.cast_mul, Nat.cast_sub h0, hf]
    rfl
  · intro earlier h1 h2
    exact realFrameCount_mono (resetContext fps t0) earlier now hfps hint
      (by rw [hi]; exact h1) h2 hnow (by rw [hi]; exact hno)

theorem realFrameCount_before_wrap_witness :
    (realFrameCount (resetContext 60 0) 71582788 : Int) =
      ((71582788 : Nat) - (0 : Nat) : Int) * 60 / 1000 :=
  (realFrameCount_before_wrap 60 0 71582788 (by decide) (by decide) (by decide) (by decide)
    (by decide)).1

/-- C5, the code at the failing input: with `autoFrameSkip = true`,
`maxFrameSkips = 2` and a 60 fps game started at tick 0, the non-decreasing ticks
0, 100, 71582789, 71582805, 71582822 give one rendered frame followed by four
skipped frames in a row: once the product of line 193 has wrapped, the real frame
count is below the virtual one, the loop takes the ahead-of-schedule branch, and
that branch leaves the positive `frameSkipCounter` as it is. -/
theorem skip_run_exceeds_bound_after_wrap :
    (runTicks true 2 (resetContext 60 0) [0, 100, 71582789, 71582805, 71582822]).map
        (fun f => (f.realFrameCount, f.branch, f.frameSkipCounter, f.skip)) =
      [(0, Branch.ahead, 0, false), (6, Branch.catchUp, 1, true), (0, Branch.ahead, 1, true),
        (1, Branch.ahead, 1, true), (2, Branch.ahead, 1, true)] := by
  decide

/-- While the product of line 193 does not wrap: with `autoFrameSkip = true` and
`maxFrameSkips = N`, from the reset context and for non-decreasing 32-bit ticks not
before the start, every window of `N + 1` consecutive ticks contains a frame that is
not skipped. -/
theorem skip_runs_bounded_before_wrap (N : Nat) (fps : Int) (t0 : Nat) (ticks : List Nat)
    (hfps : 0 < fps) (hint : fps < 2147483648) (ht0 : t0 < UINT_MOD)
    (hsorted : (t0 :: ticks).Pairwise (· ≤ ·))
    (hok : ∀ t ∈ ticks, t < UINT_MOD ∧ (t - t0) * fps.toNat < UINT_MOD) :
    ∀ i, i + (N + 1) ≤ ticks.length →
      ∃ f ∈ ((runTicks true N (resetContext fps t0) ticks).drop i).take (N + 1),
        f.skip = false := by
  have hs := List.pairwise_cons.mp hsorted
  have hlast : (resetContext fps t0).lastTicks = t0 := Nat.mod_eq_of_lt ht0
  exact adaptive_window N fps t0 hfps hint ticks (resetContext fps t0)
    (resetContext_adaptiveInv N fps t0 ht0)
    (fun t ht => ⟨by rw [hlast]; exact hs.1 t ht, (hok t ht).1, (hok t ht).2⟩) hs.2

theorem skip_runs_bounded_before_wrap_witness :
    ∃ f ∈ ((runTicks true 2 (resetContext 60 0) [0, 50, 100, 150, 200, 250, 300]).drop 1).take 3,
      f.skip = false :=
  skip_runs_bounded_before_wrap 2 60 0 [0, 50, 100, 150, 200, 250, 300] (by decide) (by decide)
    (by decide) (by decide) (by decide) 1 (by decide)

end Nesoid
